import Mathlib

/-!
Verification of the catbox IRC daemon's protocol dispatcher and event-loop
state operations, shallowly embedded from the Go source (`ircd.go`, package
main).

Modelling conventions:

* Go maps (`Server.Clients`, `Server.Nicks`, `Server.Channels`,
  `Client.Channels`, `Channel.Members`, `Client.Modes`) are modelled as
  association lists with unique keys.  Pointer references between entities
  (a `*Client` inside `Channel.Members`, a `*Channel` inside
  `Client.Channels`) are modelled as keys (client id, canonical channel
  name) resolved through the server's indices, as the spec's design notes
  (§9) describe the structure.
* Per-client outboxes (`Client.WriteChan`) are modelled by an `Event` list:
  `Event.send to msg` is a message enqueued on client `to`'s outbox, and
  `Event.closeOutbox cid` is `close(c.WriteChan)`.
* Timestamps (`time.Time`) and durations (`time.Duration`) are nanosecond
  counts as `Nat`; `now.Sub t` is `now - t` (the Go monotonic clock is
  nondecreasing, so the difference is nonnegative wherever the code takes
  it), and `int(d.Seconds())` is division by `10 ^ 9`.
* Go `len` on a string counts UTF-8 bytes; this is `byteLen` below.
* The shutdown channel, TCP listener, wait group and the reader/writer
  goroutines are I/O plumbing outside the sequential dispatcher state and
  are not part of the state model.
-/

namespace Catbox

/-- One parsed IRC protocol message, `irc.Message` of the external line
codec: a source prefix (`pfx`, possibly empty), a command, and parameters. -/
structure Message where
  pfx : String
  command : String
  params : List String
deriving DecidableEq, Repr

/-- An observable effect of a dispatcher operation: a message enqueued on a
client's outbox (`c.WriteChan <- msg`), or the closing of a client's outbox
(`close(c.WriteChan)`). -/
inductive Event where
  | send (toId : Nat) (m : Message)
  | closeOutbox (cid : Nat)
deriving DecidableEq, Repr

/-- The `Client` struct: connection state for one client.  `channels` holds
the canonical names of the joined channels (the keys of the Go map
`Client.Channels`); `modes` holds the user mode characters (the keys of
`Client.Modes`). -/
structure Client where
  id : Nat
  ip : String
  registered : Bool
  nick : String
  user : String
  realName : String
  channels : List String
  lastActivityTime : Nat
  lastPingTime : Nat
  modes : List Char
deriving DecidableEq, Repr

/-- The `Channel` struct: a canonical name and the member client ids (the
keys of the Go map `Channel.Members`). -/
structure Channel where
  name : String
  members : List Nat
deriving DecidableEq, Repr

/-- The `Server` struct's mutable indices and configuration: clients by id,
clients by canonical nick, channels by canonical name, the configuration
map, operator credentials, and the parsed ping/dead periods (nanoseconds). -/
structure Server where
  clients : List (Nat × Client)
  nicks : List (String × Nat)
  channels : List (String × Channel)
  config : List (String × String)
  opers : List (String × String)
  pingTime : Nat
  deadTime : Nat
deriving DecidableEq, Repr

/-! ### Association-list primitives (Go map reads and writes) -/

/-- Go map read `l[k]`: the value at the first occurrence of key `k`. -/
def alookup {α β : Type} [DecidableEq α] : List (α × β) → α → Option β
  | [], _ => none
  | (k, v) :: rest, a => if k = a then some v else alookup rest a

/-- Go map write `l[k] = v`: replace the value at key `k` in place, or
append the binding when the key is absent. -/
def ainsert {α β : Type} [DecidableEq α] : List (α × β) → α → β → List (α × β)
  | [], a, b => [(a, b)]
  | (k, v) :: rest, a, b =>
    if k = a then (a, b) :: rest else (k, v) :: ainsert rest a b

/-- Go map delete `delete(l, k)`: drop the first binding of key `k`. -/
def aerase {α β : Type} [DecidableEq α] : List (α × β) → α → List (α × β)
  | [], _ => []
  | (k, v) :: rest, a => if k = a then rest else (k, v) :: aerase rest a

/-! ### Byte lengths and name handling -/

/-- Number of bytes of the UTF-8 encoding of one character, as Go counts
them. -/
def charBytes (ch : Char) : Nat :=
  if ch.toNat < 0x80 then 1
  else if ch.toNat < 0x800 then 2
  else if ch.toNat < 0x10000 then 3
  else 4

/-- Go `len(s)` on a string: the UTF-8 byte length. -/
def byteLen (s : String) : Nat :=
  s.toList.foldl (fun n ch => n + charBytes ch) 0

/-- The `maxNickLength` constant (9, from the RFC). -/
def maxNickLength : Nat := 9

/-- The `maxChannelLength` constant (50, from the RFC). -/
def maxChannelLength : Nat := 50

/-- Modelled from the spec: `irc.MaxLineLength`, the maximum on-the-wire
line length, is a constant of the external line codec (spec §6); the
classic protocol value is 512 bytes including CR LF.  Only its use in
PRIVMSG truncation matters here. -/
def maxLineLength : Nat := 512

/-- The character mapping of `strings.ToLower` restricted to ASCII; every
character the validators accept is ASCII, and canonical names are built
from ASCII input in all scenarios considered here. -/
def lowerChar (ch : Char) : Char :=
  if 'A' ≤ ch ∧ ch ≤ 'Z' then Char.ofNat (ch.toNat + 32) else ch

/-- The `canonicalizeNick` function: lower-case the nick. -/
def canonicalizeNick (n : String) : String :=
  String.mk (n.toList.map lowerChar)

/-- The `canonicalizeChannel` function: lower-case the channel name. -/
def canonicalizeChannel (c : String) : String :=
  String.mk (c.toList.map lowerChar)

/-- Character loop of `isValidNick`: `a`-`z`, `0`-`9` or `_`, with no digit
in first position (the flag tracks position 0). -/
def validNickChars : List Char → Bool → Bool
  | [], _ => true
  | ch :: rest, isFirst =>
    if 'a' ≤ ch ∧ ch ≤ 'z' then validNickChars rest false
    else if '0' ≤ ch ∧ ch ≤ '9' then
      if isFirst then false else validNickChars rest false
    else if ch = '_' then validNickChars rest false
    else false

/-- The `isValidNick` function. -/
def isValidNick (n : String) : Bool :=
  if byteLen n = 0 ∨ maxNickLength < byteLen n then false
  else validNickChars n.toList true

/-- Character loop of `isValidUser`: `a`-`z` or `0`-`9` only. -/
def validUserChars : List Char → Bool
  | [] => true
  | ch :: rest =>
    if 'a' ≤ ch ∧ ch ≤ 'z' then validUserChars rest
    else if '0' ≤ ch ∧ ch ≤ '9' then validUserChars rest
    else false

/-- The `isValidUser` function. -/
def isValidUser (u : String) : Bool :=
  if byteLen u = 0 ∨ maxNickLength < byteLen u then false
  else validUserChars u.toList

/-- Character loop of `isValidChannel`: `#` first, then `a`-`z` or `0`-`9`. -/
def validChannelChars : List Char → Bool → Bool
  | [], _ => true
  | ch :: rest, isFirst =>
    if isFirst then
      if ch = '#' then validChannelChars rest false else false
    else if 'a' ≤ ch ∧ ch ≤ 'z' then validChannelChars rest false
    else if '0' ≤ ch ∧ ch ≤ '9' then validChannelChars rest false
    else false

/-- The `isValidChannel` function. -/
def isValidChannel (c : String) : Bool :=
  if byteLen c = 0 ∨ maxChannelLength < byteLen c then false
  else validChannelChars c.toList true

/-! ### Message construction -/

/-- The `nickUhost` method: the source identity `nick!~user@ip`. -/
def nickUhost (c : Client) : String :=
  c.nick ++ "!~" ++ c.user ++ "@" ++ c.ip

/-- Configuration read `s.Config[key]`; a missing key reads as the Go zero
value `""`. -/
def getConfig (s : Server) (key : String) : String :=
  (alookup s.config key).getD ""

/-- The numeric test in `Server.messageClient`: every character of the
command is a digit (an empty command also passes, as in the source). -/
def isNumericCmd (cmd : String) : Bool :=
  cmd.toList.all fun ch => 48 ≤ ch.toNat ∧ ch.toNat ≤ 57

/-- The `Server.messageClient` method: a message from the server to client
`c`; numeric commands get the client's nick (or `*`) prepended to the
parameters. -/
def serverMessage (s : Server) (c : Client) (command : String)
    (params : List String) : Event :=
  let params :=
    if isNumericCmd command then
      (if 0 < byteLen c.nick then c.nick else "*") :: params
    else params
  Event.send c.id ⟨getConfig s "server-name", command, params⟩

/-- The `Client.messageClient` method: a message from client `from` to the
client with id `to`, carrying `from`'s `nick!~user@ip` as prefix. -/
def clientMessage (from_ : Client) (toId : Nat) (command : String)
    (params : List String) : Event :=
  Event.send toId ⟨nickUhost from_, command, params⟩

/-- Write the (possibly updated) client record back into the client index,
as the Go code's in-place mutation through the shared pointer does. -/
def setClient (s : Server) (c : Client) : Server :=
  { s with clients := ainsert s.clients c.id c }

/-- A zero client record, the resolution fallback for a member id missing
from the client index (unreachable while the event-loop invariants hold,
where every member pointer is an entry of `Server.Clients`). -/
def emptyClient : Client :=
  { id := 0, ip := "", registered := false, nick := "", user := "",
    realName := "", channels := [], lastActivityTime := 0,
    lastPingTime := 0, modes := [] }

/-- Resolve a member client id through the client index (a Go pointer
dereference). -/
def getClientD (s : Server) (k : Nat) : Client :=
  (alookup s.clients k).getD emptyClient

/-! ### Broadcast loops with the tell-each-client-only-once set -/

/-- The inner loop of the NICK-change and QUIT broadcasts: walk one
channel's member list, and for each member not yet in the told set, append
it to the set and emit `ev member`. -/
def tellMembersOnce (ev : Nat → Event) :
    List Nat → List Nat → List Event → List Nat × List Event
  | [], told, events => (told, events)
  | mid :: rest, told, events =>
    if mid ∈ told then tellMembersOnce ev rest told events
    else tellMembersOnce ev rest (told ++ [mid]) (events ++ [ev mid])

/-- The outer loop of the NICK-change broadcast (`nickCommand`): walk the
client's channels, telling each member once. -/
def informChannels (s : Server) (ev : Nat → Event) :
    List String → List Nat → List Event → List Nat × List Event
  | [], told, events => (told, events)
  | name :: rest, told, events =>
    match alookup s.channels name with
    | none => informChannels s ev rest told events
    | some channel =>
      let r := tellMembersOnce ev channel.members told events
      informChannels s ev rest r.1 r.2

/-- The channel loop of `Client.quit`: per channel, tell each member once,
then remove the quitting client from the channel's member map, dropping the
channel from the server index when it empties. -/
def quitChannels (ev : Nat → Event) (cid : Nat) :
    Server → List String → List Nat → List Event →
      Server × List Nat × List Event
  | s, [], told, events => (s, told, events)
  | s, name :: rest, told, events =>
    match alookup s.channels name with
    | none => quitChannels ev cid s rest told events
    | some channel =>
      let r := tellMembersOnce ev channel.members told events
      let ms := channel.members.erase cid
      let s' :=
        if ms = [] then { s with channels := aerase s.channels channel.name }
        else { s with channels := ainsert s.channels name { channel with members := ms } }
      quitChannels ev cid s' rest r.1 r.2

/-! ### The client-quit procedure -/

/-- The `Client.quit` method.  For a registered client: broadcast
`QUIT :msg` once to every client sharing a channel (with a self-delivery
fallback), remove the client from each channel (dropping emptied channels),
and release the nick.  For an unregistered client: release the nick if one
was claimed.  Always: send `ERROR :msg` from the server, close the outbox,
and remove the client from the client index. -/
def quit (s : Server) (cid : Nat) (msg : String) : Server × List Event :=
  match alookup s.clients cid with
  | none => (s, [])
  | some c =>
    let r :=
      if c.registered then
        let ev := fun mid => clientMessage c mid "QUIT" [msg]
        let r := quitChannels ev c.id s c.channels [] []
        let events :=
          if c.id ∈ r.2.1 then r.2.2
          else r.2.2 ++ [clientMessage c c.id "QUIT" [msg]]
        ({ r.1 with nicks := aerase r.1.nicks (canonicalizeNick c.nick) }, events)
      else
        (if 0 < byteLen c.nick then
           { s with nicks := aerase s.nicks (canonicalizeNick c.nick) }
         else s, [])
    let events := r.2 ++ [serverMessage r.1 c "ERROR" [msg], Event.closeOutbox c.id]
    ({ r.1 with clients := aerase r.1.clients c.id }, events)

/-! ### Command handlers -/

/-- The `nickCommand` handler. -/
def nickCommand (s : Server) (c : Client) (m : Message) : Server × List Event :=
  match m.params with
  | [] => (s, [serverMessage s c "431" ["No nickname given"]])
  | nick :: _ =>
    if ¬ isValidNick nick then
      (s, [serverMessage s c "432" [nick, "Erroneous nickname"]])
    else
      let nickCanon := canonicalizeNick nick
      match alookup s.nicks nickCanon with
      | some _ =>
        (s, [serverMessage s c "432" [nick, "Nickname is already in use"]])
      | none =>
        let s1 := { s with nicks := ainsert s.nicks nickCanon c.id }
        let oldNick := c.nick
        let s2 :=
          if 0 < byteLen oldNick then
            { s1 with nicks := aerase s1.nicks (canonicalizeNick oldNick) }
          else s1
        let events :=
          if c.registered then
            let ev := fun mid => clientMessage c mid "NICK" [nick]
            let r := informChannels s2 ev c.channels [] []
            if c.id ∈ r.1 then r.2 else r.2 ++ [clientMessage c c.id "NICK" [nick]]
          else []
        (setClient s2 { c with nick := nick }, events)

/-- The `lusersCommand` handler (output only). -/
def lusersEvents (s : Server) (c : Client) : List Event :=
  [serverMessage s c "251"
    ["There are " ++ toString s.nicks.length ++
     " users and 0 services on 0 servers."]]
  ++ (let numUnknown := s.clients.length - s.nicks.length
      if 0 < numUnknown then
        [serverMessage s c "253" [toString numUnknown, "unknown connection(s)"]]
      else [])
  ++ (if 0 < s.channels.length then
        [serverMessage s c "254" [toString s.channels.length, "channels formed"]]
      else [])
  ++ [serverMessage s c "255"
       ["I have " ++ toString s.nicks.length ++ " clients and 0 servers"]]

/-- The `motdCommand` handler (output only). -/
def motdEvents (s : Server) (c : Client) : List Event :=
  [serverMessage s c "375" ["- " ++ getConfig s "server-name" ++ " Message of the day - "],
   serverMessage s c "372" ["- " ++ getConfig s "motd"],
   serverMessage s c "376" ["End of MOTD command"]]

/-- The `userCommand` handler.  Note the source stores the user name before
validating the real name, so the invalid-realname rejection leaves the user
name already overwritten. -/
def userCommand (s : Server) (c : Client) (m : Message) : Server × List Event :=
  if c.registered then
    (s, [serverMessage s c "462" ["Unauthorized command (already registered)"]])
  else if byteLen c.nick = 0 then
    (s, [serverMessage s c "ERROR" ["Please send NICK first"]])
  else
    match m.params with
    | [user, _, _, realname] =>
      if ¬ isValidUser user then
        (s, [serverMessage s c "ERROR" ["Invalid username"]])
      else
        let c1 := { c with user := user }
        let s1 := setClient s c1
        if 64 < byteLen realname then
          (s1, [serverMessage s1 c1 "ERROR" ["Invalid realname"]])
        else
          let c2 := { c1 with realName := realname, registered := true }
          let s2 := setClient s1 c2
          (s2,
           [serverMessage s2 c2 "001"
              ["Welcome to the Internet Relay Network " ++ nickUhost c2],
            serverMessage s2 c2 "002"
              ["Your host is " ++ getConfig s2 "server-name" ++
               ", running version " ++ getConfig s2 "version"],
            serverMessage s2 c2 "003"
              ["This server was created " ++ getConfig s2 "created-date"],
            serverMessage s2 c2 "004"
              [getConfig s2 "server-name", getConfig s2 "version", "o", "n"]]
           ++ lusersEvents s2 c2 ++ motdEvents s2 c2)
    | _ =>
      (s, [serverMessage s c "461" [m.command, "Not enough parameters"]])

/-- The `Client.part` method: validate, broadcast `PART` to every member
(including the parting client), remove the client from the channel, and
drop the channel when it empties. -/
def part (s : Server) (cid : Nat) (channelName0 message : String) :
    Server × List Event :=
  match alookup s.clients cid with
  | none => (s, [])
  | some c =>
    let channelName := canonicalizeChannel channelName0
    if ¬ isValidChannel channelName then
      (s, [serverMessage s c "403" [channelName, "Invalid channel name"]])
    else
      match alookup s.channels channelName with
      | none => (s, [serverMessage s c "403" [channelName, "No such channel"]])
      | some channel =>
        if ¬ (channel.name ∈ c.channels) then
          (s, [serverMessage s c "403" [channelName, "You are not on that channel"]])
        else
          let events := channel.members.map fun mid =>
            clientMessage c mid "PART"
              (channelName :: (if 0 < byteLen message then [message] else []))
          let ms := channel.members.erase c.id
          let s1 := setClient s { c with channels := c.channels.erase channel.name }
          let s2 :=
            if ms = [] then { s1 with channels := aerase s1.channels channel.name }
            else { s1 with channels := ainsert s1.channels channelName { channel with members := ms } }
          (s2, events)

/-- The `joinCommand` handler.  `JOIN 0` parts every channel; otherwise
validate, reject when already a member, create the channel if absent, add
the client to both indices, then emit the JOIN echo, the names list, its
terminator, and the JOIN broadcast to the other members, in that order. -/
def joinCommand (s : Server) (c : Client) (m : Message) : Server × List Event :=
  match m.params with
  | [] => (s, [serverMessage s c "461" ["JOIN", "Not enough parameters"]])
  | p0 :: rest =>
    if rest = [] ∧ p0 = "0" then
      c.channels.foldl
        (fun acc name =>
          let r := part acc.1 c.id name ""
          (r.1, acc.2 ++ r.2))
        (s, [])
    else
      let channelName := canonicalizeChannel p0
      if ¬ isValidChannel channelName then
        (s, [serverMessage s c "403" [channelName, "Invalid channel name"]])
      else if channelName ∈ c.channels then
        (s, [serverMessage s c "ERROR" ["You are on that channel"]])
      else
        let channel0 :=
          match alookup s.channels channelName with
          | some ch => ch
          | none => { name := channelName, members := [] }
        let channel :=
          { channel0 with members :=
              if c.id ∈ channel0.members then channel0.members
              else channel0.members ++ [c.id] }
        let s1 := { s with channels := ainsert s.channels channelName channel }
        let c1 :=
          { c with channels :=
              if channelName ∈ c.channels then c.channels
              else c.channels ++ [channelName] }
        let s2 := setClient s1 c1
        (s2,
         [clientMessage c1 c.id "JOIN" [channel.name]]
         ++ channel.members.map (fun mid =>
              serverMessage s2 c1 "353"
                ["=", channel.name, ":" ++ (getClientD s2 mid).nick])
         ++ [serverMessage s2 c1 "366" [channel.name, "End of NAMES list"]]
         ++ (channel.members.filter (fun mid => mid ≠ c.id)).map (fun mid =>
              clientMessage c1 mid "JOIN" [channel.name]))

/-- The `partCommand` handler. -/
def partCommand (s : Server) (c : Client) (m : Message) : Server × List Event :=
  match m.params with
  | [] => (s, [serverMessage s c "461" ["PART", "Not enough parameters"]])
  | p0 :: rest =>
    let partMessage := match rest with | [] => "" | x :: _ => x
    part s c.id p0 partMessage

/-- Keep the longest prefix of the characters whose UTF-8 encoding fits in
`k` bytes.  This models the Go byte slice `msg[:k]` for in-range `k`; a Go
cut through the middle of a rune yields invalid UTF-8 not representable as
a Lean string, and a negative `k` makes the Go program panic (see
`privmsgCutIndex`); here the count clamps at a character boundary and at
zero. -/
def byteTakeChars : List Char → Nat → List Char
  | [], _ => []
  | ch :: rest, k =>
    if charBytes ch ≤ k then ch :: byteTakeChars rest (k - charBytes ch)
    else []

/-- String version of `byteTakeChars`. -/
def stringByteTake (s : String) (k : Nat) : String :=
  String.mk (byteTakeChars s.toList k)

/-- The slice index `len(msg) - trimCount` computed by `privmsgCommand`
when the encoded line would exceed the codec's maximum line length
(`msg = msg[:len(msg)-trimCount]`).  A negative value makes the Go slice
expression panic with a bounds error. -/
def privmsgCutIndex (uhost target text : String) : Int :=
  let msgLen := 1 + byteLen uhost + 9 + byteLen target + 1 + 1 + byteLen text + 2
  (byteLen text : Int) - ((msgLen : Int) - (maxLineLength : Int))

/-- The `privmsgCommand` handler. -/
def privmsgCommand (s : Server) (c : Client) (m : Message) : Server × List Event :=
  match m.params with
  | [] => (s, [serverMessage s c "411" ["No recipient given (PRIVMSG)"]])
  | [_] => (s, [serverMessage s c "412" ["No text to send"]])
  | target :: msg0 :: _ =>
    let msgLen := 1 + byteLen (nickUhost c) + 9 + byteLen target + 1 + 1 +
      byteLen msg0 + 2
    let msg :=
      if maxLineLength < msgLen then
        stringByteTake msg0 (byteLen msg0 - (msgLen - maxLineLength))
      else msg0
    if target.toList.head? = some '#' then
      let channelName := canonicalizeChannel target
      if ¬ isValidChannel channelName then
        (s, [serverMessage s c "404" [channelName, "Cannot send to channel"]])
      else
        match alookup s.channels channelName with
        | none => (s, [serverMessage s c "403" [channelName, "No such channel"]])
        | some channel =>
          if ¬ (channel.name ∈ c.channels) then
            (s, [serverMessage s c "404" [channelName, "Cannot send to channel"]])
          else
            (s, (channel.members.filter (fun mid => mid ≠ c.id)).map fun mid =>
              clientMessage c mid "PRIVMSG" [channel.name, msg])
    else
      let nickName := canonicalizeNick target
      if ¬ isValidNick nickName then
        (s, [serverMessage s c "401" [nickName, "No such nick/channel"]])
      else
        match alookup s.nicks nickName with
        | none => (s, [serverMessage s c "401" [nickName, "No such nick/channel"]])
        | some tid => (s, [clientMessage c tid "PRIVMSG" [nickName, msg]])

/-- The `quitCommand` handler: prefix `Quit:` to the optional reason and
run the client-quit procedure. -/
def quitCommand (s : Server) (c : Client) (m : Message) : Server × List Event :=
  let msg := match m.params with
    | [] => "Quit:"
    | p :: _ => "Quit:" ++ " " ++ p
  quit s c.id msg

/-- The `pingCommand` handler (output only). -/
def pingEvents (s : Server) (c : Client) (m : Message) : List Event :=
  match m.params with
  | [] => [serverMessage s c "409" ["No origin specified"]]
  | server :: _ =>
    if server ≠ getConfig s "server-name" then
      [serverMessage s c "402" [server, "No such server"]]
    else [serverMessage s c "PONG" [server]]

/-- The `dieCommand` handler: `Server.shutdown`.  Closing the shutdown
channel and the TCP listener are I/O effects outside the state model; the
state effect is quitting every client with `Server shutting down`. -/
def dieCommand (s : Server) : Server × List Event :=
  (s.clients.map Prod.fst).foldl
    (fun acc cid =>
      let r := quit acc.1 cid "Server shutting down"
      (r.1, acc.2 ++ r.2))
    (s, [])

/-- The `whoisCommand` handler (output only). -/
def whoisEvents (now : Nat) (s : Server) (c : Client) (m : Message) : List Event :=
  match m.params with
  | [] => [serverMessage s c "431" ["No nickname given"]]
  | nick :: _ =>
    match alookup s.nicks (canonicalizeNick nick) with
    | none => [serverMessage s c "401" [nick, "No such nick/channel"]]
    | some tid =>
      let t := getClientD s tid
      [serverMessage s c "311" [t.nick, t.user, t.ip, "*", t.realName],
       serverMessage s c "312"
         [t.nick, getConfig s "server-name", getConfig s "server-info"]]
      ++ (if 'o' ∈ t.modes then
            [serverMessage s c "313" [t.nick, "is an IRC operator"]]
          else [])
      ++ [serverMessage s c "317"
            [t.nick, toString ((now - t.lastActivityTime) / 1000000000),
             "seconds idle"],
          serverMessage s c "318" [t.nick, "End of WHOIS list"]]

/-- The `operCommand` handler. -/
def operCommand (s : Server) (c : Client) (m : Message) : Server × List Event :=
  match m.params with
  | p0 :: p1 :: _ =>
    if 'o' ∈ c.modes then
      (s, [serverMessage s c "ERROR" ["You are already an operator."]])
    else
      match alookup s.opers p0 with
      | none => (s, [serverMessage s c "464" ["Password incorrect"]])
      | some pass =>
        if pass ≠ p1 then
          (s, [serverMessage s c "464" ["Password incorrect"]])
        else
          let c1 := { c with modes := if 'o' ∈ c.modes then c.modes else c.modes ++ ['o'] }
          (setClient s c1,
           [clientMessage c c.id "MODE" [c.nick, "+o"],
            serverMessage s c "381" ["You are now an IRC operator"]])
  | _ => (s, [serverMessage s c "461" ["OPER", "Not enough parameters"]])

/-- The character loop of `userModeCommand`: track the current `+`/`-`
action, ignore `i`/`w`/`s`, reject unknown flags, ignore `+o`, and apply
`-o` when the client is an operator. -/
def modeChars (s : Server) :
    Client → Char → List Char → List Event → Client × List Event
  | c, _, [], events => (c, events)
  | c, action, ch :: rest, events =>
    if ch = '+' ∨ ch = '-' then modeChars s c ch rest events
    else if action = ' ' then
      modeChars s c action rest (events ++ [serverMessage s c "ERROR" ["Malformed MODE"]])
    else if ch = 'i' ∨ ch = 'w' ∨ ch = 's' then modeChars s c action rest events
    else if ch ≠ 'o' then
      modeChars s c action rest (events ++ [serverMessage s c "501" ["Unknown MODE flag"]])
    else if action = '+' then modeChars s c action rest events
    else if ¬ ('o' ∈ c.modes) then modeChars s c action rest events
    else
      modeChars s { c with modes := c.modes.erase 'o' } action rest
        (events ++ [clientMessage c c.id "MODE" ["-o", c.nick]])

/-- The `userModeCommand` handler. -/
def userModeCommand (s : Server) (c : Client) (tid : Nat) (modes : String) :
    Server × List Event :=
  if tid ≠ c.id then
    (s, [serverMessage s c "502" ["Cannot change mode for other users"]])
  else if byteLen modes = 0 then
    (s, [serverMessage s c "221" ["+" ++ String.mk c.modes]])
  else
    let r := modeChars s c ' ' modes.toList []
    (setClient s r.1, r.2)

/-- The `channelModeCommand` handler (output only). -/
def channelModeEvents (s : Server) (c : Client) (channel : Channel)
    (modes : String) : List Event :=
  if ¬ (channel.name ∈ c.channels) then
    [serverMessage s c "442" [channel.name, "You're not on that channel"]]
  else if byteLen modes = 0 then
    [serverMessage s c "324" [channel.name, "+n"]]
  else if modes = "b" ∨ modes = "+b" then
    [serverMessage s c "368" [channel.name, "End of channel ban list"]]
  else
    [serverMessage s c "482" [channel.name, "You're not channel operator"]]

/-- The `modeCommand` handler: dispatch on whether the target resolves to a
nick, a channel, or neither. -/
def modeCommand (s : Server) (c : Client) (m : Message) : Server × List Event :=
  match m.params with
  | [] => (s, [serverMessage s c "461" ["MODE", "Not enough parameters"]])
  | target :: rest =>
    let modes := match rest with | [] => "" | x :: _ => x
    match alookup s.nicks (canonicalizeNick target) with
    | some tid => userModeCommand s c tid modes
    | none =>
      match alookup s.channels (canonicalizeChannel target) with
      | some channel => (s, channelModeEvents s c channel modes)
      | none => (s, [serverMessage s c "403" [target, "No such channel"]])

/-- The `whoCommand` handler (output only). -/
def whoEvents (s : Server) (c : Client) (m : Message) : List Event :=
  match m.params with
  | [] => [serverMessage s c "461" [m.command, "Not enough parameters"]]
  | p0 :: _ =>
    match alookup s.channels (canonicalizeChannel p0) with
    | none => [serverMessage s c "403" [p0, "Invalid channel name"]]
    | some channel =>
      if ¬ (channel.name ∈ c.channels) then
        [serverMessage s c "442" [channel.name, "You're not on that channel"]]
      else
        (channel.members.map fun mid =>
          let member := getClientD s mid
          serverMessage s c "352"
            [channel.name, member.user, member.ip,
             getConfig s "server-name", member.nick,
             (if 'o' ∈ member.modes then "H*" else "H"),
             "0 " ++ member.realName])
        ++ [serverMessage s c "315" [channel.name, "End of WHO list"]]

/-- The `handleMessage` dispatcher.  The common preamble records the
arrival time and rejects messages with a source prefix; `CAP` is ignored;
`NICK` and `USER` are available before registration; everything else
requires the `REGISTERED` state and otherwise draws numeric 451.  The
client id is resolved through the client index as the event loop does
before invoking the dispatcher. -/
def handleMessage (now : Nat) (s : Server) (cid : Nat) (m : Message) :
    Server × List Event :=
  match alookup s.clients cid with
  | none => (s, [])
  | some c0 =>
    let c := { c0 with lastActivityTime := now }
    let s := setClient s c
    if m.pfx ≠ "" then
      (s, [serverMessage s c "ERROR" ["Do not send a prefix"]])
    else if m.command = "CAP" then (s, [])
    else if m.command = "NICK" then nickCommand s c m
    else if m.command = "USER" then userCommand s c m
    else if c.registered = false then
      (s, [serverMessage s c "451" ["You have not registered."]])
    else if m.command = "JOIN" then joinCommand s c m
    else if m.command = "PART" then partCommand s c m
    else if m.command = "PRIVMSG" then privmsgCommand s c m
    else if m.command = "LUSERS" then (s, lusersEvents s c)
    else if m.command = "MOTD" then (s, motdEvents s c)
    else if m.command = "QUIT" then quitCommand s c m
    else if m.command = "PONG" then (s, [])
    else if m.command = "PING" then (s, pingEvents s c m)
    else if m.command = "DIE" then dieCommand s
    else if m.command = "WHOIS" then (s, whoisEvents now s c m)
    else if m.command = "OPER" then operCommand s c m
    else if m.command = "MODE" then modeCommand s c m
    else if m.command = "WHO" then (s, whoEvents s c m)
    else (s, [serverMessage s c "421" [m.command, "Unknown command"]])

/-! ### The liveness sweep -/

/-- The per-client body of `checkAndPingClients`: skip recently active
registered clients, quit clients idle beyond the dead period, and otherwise
ping a registered client not pinged within the ping period; quit an
unregistered client idle beyond the dead period. -/
def pingStep (now : Nat) (s : Server) (cid : Nat) : Server × List Event :=
  match alookup s.clients cid with
  | none => (s, [])
  | some client =>
    let timeIdle := now - client.lastActivityTime
    let timeSincePing := now - client.lastPingTime
    if client.registered then
      if timeIdle < s.pingTime then (s, [])
      else if s.deadTime < timeIdle then
        quit s cid
          ("Ping timeout: " ++ toString (timeIdle / 1000000000) ++ " seconds")
      else if timeSincePing < s.pingTime then (s, [])
      else
        ({ s with clients := ainsert s.clients cid { client with lastPingTime := now } },
         [serverMessage s client "PING" [getConfig s "server-name"]])
    else
      if s.deadTime < timeIdle then quit s cid "Idle too long."
      else (s, [])

/-- The `checkAndPingClients` heartbeat sweep: apply `pingStep` to every
connected client. -/
def checkAndPingClients (now : Nat) (s : Server) : Server × List Event :=
  (s.clients.map Prod.fst).foldl
    (fun acc cid =>
      let r := pingStep now acc.1 cid
      (r.1, acc.2 ++ r.2))
    (s, [])

end Catbox


namespace Catbox

/-! ### Auxiliary definitions used by the verification layer -/

/-- Keys of an association list. -/
def akeys {α β : Type} (l : List (α × β)) : List α := l.map Prod.fst

/-- Fold of the told set over one member list: append each member not yet
present. -/
def addUnseen (t : List Nat) : List Nat → List Nat
  | [] => t
  | m :: ms => if m ∈ t then addUnseen t ms else addUnseen (t ++ [m]) ms

/-- The members newly told while walking one member list with told set `t`. -/
def newMem (t : List Nat) : List Nat → List Nat
  | [] => []
  | m :: ms => if m ∈ t then newMem t ms else m :: newMem (t ++ [m]) ms

/-- Fold of the told set over a list of channel names resolved in `s`. -/
def unionAcc (s : Server) (t : List Nat) : List String → List Nat
  | [] => t
  | nm :: rest =>
    match alookup s.channels nm with
    | none => unionAcc s t rest
    | some ch => unionAcc s (addUnseen t ch.members) rest

/-- The members newly told while walking a list of channel names. -/
def unionNew (s : Server) (t : List Nat) : List String → List Nat
  | [] => []
  | nm :: rest =>
    match alookup s.channels nm with
    | none => unionNew s t rest
    | some ch => newMem t ch.members ++ unionNew s (addUnseen t ch.members) rest

/-- Effect of the quit loop on one channel-index entry: remove the quitting
member, dropping the entry when it empties. -/
def eraseMember (cid : Nat) (o : Option Channel) : Option Channel :=
  o.bind fun ch =>
    if ch.members.erase cid = [] then none
    else some { ch with members := ch.members.erase cid }

/-- Sample configuration for concrete scenarios. -/
def sampleConfig : List (String × String) :=
  [("server-name", "irc.example.com"), ("version", "1.0"),
   ("created-date", "today"), ("server-info", "test server"),
   ("motd", "hello")]

/-- A registered client on channel `#lobby`. -/
def aliceC : Client :=
  { id := 1, ip := "10.0.0.1", registered := true, nick := "alice",
    user := "alice", realName := "Alice", channels := ["#lobby"],
    lastActivityTime := 0, lastPingTime := 0, modes := [] }

/-- A second registered client on channel `#lobby`. -/
def bobC : Client :=
  { id := 2, ip := "10.0.0.2", registered := true, nick := "bob",
    user := "bob", realName := "Bob", channels := ["#lobby"],
    lastActivityTime := 0, lastPingTime := 0, modes := [] }

/-- An unregistered client that has claimed a nick. -/
def carlC : Client :=
  { id := 3, ip := "10.0.0.3", registered := false, nick := "carl",
    user := "", realName := "", channels := [],
    lastActivityTime := 0, lastPingTime := 0, modes := [] }

/-- The sample channel with both registered clients as members. -/
def lobbyC : Channel := { name := "#lobby", members := [1, 2] }

/-- A concrete server state for the witnesses: alice and bob registered and
on `#lobby`, carl unregistered with a claimed nick. -/
def sampleServer : Server :=
  { clients := [(1, aliceC), (2, bobC), (3, carlC)],
    nicks := [("alice", 1), ("bob", 2), ("carl", 3)],
    channels := [("#lobby", lobbyC)],
    config := sampleConfig, opers := [("admin", "secret")],
    pingTime := 30000000000, deadTime := 240000000000 }

/-- The event-loop invariants of the spec (section 3), as they constrain
the modelled state: no duplicate keys in the three indices; every indexed
channel carries its own key as name, is nonempty, has no duplicate members,
and each member is an indexed client listing the channel; every indexed
client carries its own key as id, lists no channel twice, lists no channel
at all before registration, and each listed channel is indexed and contains
the client. -/
def Inv (s : Server) : Prop :=
  (akeys s.clients).Nodup ∧ (akeys s.nicks).Nodup ∧ (akeys s.channels).Nodup ∧
  (∀ p ∈ s.channels, p.2.name = p.1 ∧ p.2.members ≠ [] ∧ p.2.members.Nodup ∧
    (∀ k ∈ p.2.members, ∃ q ∈ s.clients, q.1 = k ∧ p.1 ∈ q.2.channels)) ∧
  (∀ q ∈ s.clients, q.2.id = q.1 ∧ q.2.channels.Nodup ∧
    (q.2.registered = false → q.2.channels = []) ∧
    (∀ nm ∈ q.2.channels, ∃ p ∈ s.channels, p.1 = nm ∧ q.1 ∈ p.2.members))

/-- Spec-side restatement of claim C5's success case: create the channel if
absent, add the joiner to the member map and to the client's channel map,
then enqueue the JOIN echo, one numeric 353 per current member, numeric
366, and a JOIN to every member other than the joiner, in this order. -/
def joinSpecResult (s : Server) (c : Client) (name : String) : Server × List Event :=
  let ch0 := (alookup s.channels name).getD { name := name, members := [] }
  let ch := { ch0 with members := ch0.members ++ [c.id] }
  let c1 := { c with channels := c.channels ++ [name] }
  let s2 := { s with channels := ainsert s.channels name ch, clients := ainsert s.clients c.id c1 }
  (s2,
   [clientMessage c1 c.id "JOIN" [ch.name]]
   ++ ch.members.map (fun mid =>
        serverMessage s2 c1 "353" ["=", ch.name, ":" ++ (getClientD s2 mid).nick])
   ++ [serverMessage s2 c1 "366" [ch.name, "End of NAMES list"]]
   ++ (ch.members.filter (fun mid => mid ≠ c.id)).map (fun mid =>
        clientMessage c1 mid "JOIN" [ch.name]))

/-- The invariant is decidable, so concrete states can be checked by
evaluation. -/
instance invDecidable (s : Server) : Decidable (Inv s) := by
  unfold Inv
  infer_instance

end Catbox

namespace Catbox

/-! ### Association-list lemmas -/

@[simp] theorem akeys_nil {α β : Type} : akeys ([] : List (α × β)) = [] := rfl

@[simp] theorem akeys_cons {α β : Type} (k : α) (v : β) (rest : List (α × β)) :
    akeys ((k, v) :: rest) = k :: akeys rest := rfl

theorem alookup_ainsert {α β : Type} [DecidableEq α]
    (l : List (α × β)) (a : α) (b : β) (a' : α) :
    alookup (ainsert l a b) a' = if a = a' then some b else alookup l a' := by
  induction l with
  | nil => simp [ainsert, alookup]
  | cons p rest ih =>
    obtain ⟨k, v⟩ := p
    by_cases hk : k = a
    · subst hk
      by_cases h' : k = a' <;> simp [ainsert, alookup, h']
    · by_cases h' : k = a'
      · subst h'
        simp [ainsert, alookup, hk, Ne.symm hk]
      · simp [ainsert, alookup, hk, h', ih]

theorem alookup_aerase_ne {α β : Type} [DecidableEq α]
    (l : List (α × β)) (a a' : α) (h : a ≠ a') :
    alookup (aerase l a) a' = alookup l a' := by
  induction l with
  | nil => simp [aerase, alookup]
  | cons p rest ih =>
    obtain ⟨k, v⟩ := p
    by_cases hk : k = a
    · subst hk
      simp [aerase, alookup, h]
    · by_cases h' : k = a'
      · simp [aerase, alookup, hk, h', Ne.symm h]
      · simp [aerase, alookup, hk, h', ih]

theorem alookup_eq_none {α β : Type} [DecidableEq α]
    (l : List (α × β)) (a : α) :
    alookup l a = none ↔ a ∉ akeys l := by
  induction l with
  | nil => simp [alookup]
  | cons p rest ih =>
    obtain ⟨k, v⟩ := p
    by_cases hk : k = a
    · subst hk
      simp [alookup]
    · rw [akeys_cons]
      simp [alookup, hk, ih, Ne.symm hk]

theorem alookup_mem {α β : Type} [DecidableEq α]
    {l : List (α × β)} {a : α} {b : β} (h : alookup l a = some b) :
    (a, b) ∈ l := by
  induction l with
  | nil => simp [alookup] at h
  | cons p rest ih =>
    obtain ⟨k, v⟩ := p
    by_cases hk : k = a
    · subst hk
      simp [alookup] at h
      simp [h]
    · simp [alookup, hk] at h
      exact List.mem_cons_of_mem _ (ih h)

theorem mem_alookup {α β : Type} [DecidableEq α]
    {l : List (α × β)} (hnd : (akeys l).Nodup) {a : α} {b : β}
    (hm : (a, b) ∈ l) : alookup l a = some b := by
  induction l with
  | nil => simp at hm
  | cons p rest ih =>
    obtain ⟨k, v⟩ := p
    rw [akeys_cons, List.nodup_cons] at hnd
    rcases List.mem_cons.mp hm with h | h
    · have h1 : a = k := congrArg Prod.fst h
      have h2 : b = v := congrArg Prod.snd h
      subst h1; subst h2
      simp [alookup]
    · have hka : ¬ k = a := by
        intro hk
        subst hk
        exact hnd.1 (List.mem_map_of_mem Prod.fst h)
      simp [alookup, hka]
      exact ih hnd.2 h

theorem alookup_aerase_self {α β : Type} [DecidableEq α]
    (l : List (α × β)) (hnd : (akeys l).Nodup) (a : α) :
    alookup (aerase l a) a = none := by
  induction l with
  | nil => simp [aerase, alookup]
  | cons p rest ih =>
    obtain ⟨k, v⟩ := p
    rw [akeys_cons, List.nodup_cons] at hnd
    by_cases hk : k = a
    · subst hk
      simp only [aerase, if_pos rfl]
      exact (alookup_eq_none rest k).mpr hnd.1
    · simp [aerase, alookup, hk, ih hnd.2]

theorem akeys_ainsert {α β : Type} [DecidableEq α]
    (l : List (α × β)) (a : α) (b : β) :
    akeys (ainsert l a b) = if a ∈ akeys l then akeys l else akeys l ++ [a] := by
  induction l with
  | nil => simp [ainsert]
  | cons p rest ih =>
    obtain ⟨k, v⟩ := p
    by_cases hk : k = a
    · subst hk
      simp [ainsert]
    · rw [akeys_cons]
      simp only [ainsert, if_neg hk, akeys_cons, ih, List.mem_cons]
      by_cases hmem : a ∈ akeys rest <;> simp [hmem, Ne.symm hk]

theorem akeys_ainsert_nodup {α β : Type} [DecidableEq α]
    (l : List (α × β)) (a : α) (b : β) (hnd : (akeys l).Nodup) :
    (akeys (ainsert l a b)).Nodup := by
  rw [akeys_ainsert]
  by_cases hmem : a ∈ akeys l
  · simpa [hmem] using hnd
  · simp [hmem, List.nodup_append, hnd]

theorem aerase_sublist {α β : Type} [DecidableEq α]
    (l : List (α × β)) (a : α) : List.Sublist (aerase l a) l := by
  induction l with
  | nil => simp [aerase]
  | cons p rest ih =>
    obtain ⟨k, v⟩ := p
    by_cases hk : k = a
    · subst hk
      simp only [aerase, if_pos rfl]
      exact List.sublist_cons_self _ _
    · simp only [aerase, if_neg hk]
      exact ih.cons₂ _

theorem akeys_aerase_nodup {α β : Type} [DecidableEq α]
    (l : List (α × β)) (a : α) (hnd : (akeys l).Nodup) :
    (akeys (aerase l a)).Nodup :=
  List.Nodup.sublist ((aerase_sublist l a).map Prod.fst) hnd

theorem mem_ainsert {α β : Type} [DecidableEq α]
    {l : List (α × β)} (hnd : (akeys l).Nodup) (a : α) (b : β) (p : α × β) :
    p ∈ ainsert l a b ↔ p = (a, b) ∨ (p ∈ l ∧ p.1 ≠ a) := by
  induction l with
  | nil => simp [ainsert]
  | cons q rest ih =>
    obtain ⟨k, v⟩ := q
    rw [akeys_cons, List.nodup_cons] at hnd
    by_cases hk : k = a
    · subst hk
      rw [show ainsert ((k, v) :: rest) k b = (k, b) :: rest from by simp [ainsert]]
      simp only [List.mem_cons]
      have h2 : p ∈ rest → p.1 ≠ k := fun hmem hpa =>
        hnd.1 (hpa ▸ List.mem_map_of_mem Prod.fst hmem)
      have h3 : p = (k, v) → p.1 = k := fun h => by rw [h]
      have h4 : p = (k, b) → p.1 = k := fun h => by rw [h]
      tauto
    · rw [show ainsert ((k, v) :: rest) a b = (k, v) :: ainsert rest a b from by
        simp [ainsert, hk]]
      simp only [List.mem_cons]
      rw [ih hnd.2]
      have h1 : p = (k, v) → p.1 ≠ a := fun h => by rw [h]; exact hk
      tauto

theorem mem_aerase {α β : Type} [DecidableEq α]
    {l : List (α × β)} (hnd : (akeys l).Nodup) (a : α) (p : α × β) :
    p ∈ aerase l a ↔ p ∈ l ∧ p.1 ≠ a := by
  induction l with
  | nil => simp [aerase]
  | cons q rest ih =>
    obtain ⟨k, v⟩ := q
    rw [akeys_cons, List.nodup_cons] at hnd
    by_cases hk : k = a
    · subst hk
      rw [show aerase ((k, v) :: rest) k = rest from by simp [aerase]]
      have h2 : p ∈ rest → p.1 ≠ k := fun hmem hpa =>
        hnd.1 (hpa ▸ List.mem_map_of_mem Prod.fst hmem)
      have h3 : p = (k, v) → p.1 = k := fun h => by rw [h]
      simp only [List.mem_cons]
      tauto
    · rw [show aerase ((k, v) :: rest) a = (k, v) :: aerase rest a from by
        simp [aerase, hk]]
      simp only [List.mem_cons]
      rw [ih hnd.2]
      have h1 : p = (k, v) → p.1 ≠ a := fun h => by rw [h]; exact hk
      tauto

theorem ainsert_of_alookup_none {α β : Type} [DecidableEq α]
    {l : List (α × β)} {a : α} (h : alookup l a = none) (b : β) :
    ainsert l a b = l ++ [(a, b)] := by
  induction l with
  | nil => simp [ainsert]
  | cons p rest ih =>
    obtain ⟨k, v⟩ := p
    by_cases hk : k = a
    · subst hk
      simp [alookup] at h
    · simp [alookup, hk] at h
      simp [ainsert, hk, ih h]

theorem aerase_append_of_alookup_none {α β : Type} [DecidableEq α]
    {l : List (α × β)} {a : α} (h : alookup l a = none) (b : β) :
    aerase (l ++ [(a, b)]) a = l := by
  induction l with
  | nil => simp [aerase]
  | cons p rest ih =>
    obtain ⟨k, v⟩ := p
    by_cases hk : k = a
    · subst hk
      simp [alookup] at h
    · simp [alookup, hk] at h
      simp [aerase, hk, ih h]

theorem ainsert_alookup_self {α β : Type} [DecidableEq α]
    {l : List (α × β)} {a : α} {b : β} (h : alookup l a = some b) :
    ainsert l a b = l := by
  induction l with
  | nil => simp [alookup] at h
  | cons p rest ih =>
    obtain ⟨k, v⟩ := p
    by_cases hk : k = a
    · subst hk
      simp [alookup] at h
      simp [ainsert, h]
    · simp [alookup, hk] at h
      simp [ainsert, hk, ih h]

theorem ainsert_ainsert {α β : Type} [DecidableEq α]
    (l : List (α × β)) (a : α) (b b' : β) :
    ainsert (ainsert l a b) a b' = ainsert l a b' := by
  induction l with
  | nil => simp [ainsert]
  | cons p rest ih =>
    obtain ⟨k, v⟩ := p
    by_cases hk : k = a
    · subst hk
      simp [ainsert]
    · simp [ainsert, hk, ih]

end Catbox

namespace Catbox

/-! ### Characterizing the tell-each-client-once loops -/

theorem addUnseen_eq_append (t : List Nat) (ms : List Nat) :
    addUnseen t ms = t ++ newMem t ms := by
  induction ms generalizing t with
  | nil => simp [addUnseen, newMem]
  | cons m ms ih =>
    by_cases hm : m ∈ t
    · simp [addUnseen, newMem, hm, ih]
    · simp [addUnseen, newMem, hm, ih]

theorem mem_addUnseen (t : List Nat) (ms : List Nat) (k : Nat) :
    k ∈ addUnseen t ms ↔ k ∈ t ∨ k ∈ ms := by
  induction ms generalizing t with
  | nil => simp [addUnseen]
  | cons m ms ih =>
    by_cases hm : m ∈ t
    · simp only [addUnseen, if_pos hm, ih, List.mem_cons]
      constructor
      · rintro (h | h)
        · exact Or.inl h
        · exact Or.inr (Or.inr h)
      · rintro (h | h | h)
        · exact Or.inl h
        · exact Or.inl (h ▸ hm)
        · exact Or.inr h
    · simp only [addUnseen, if_neg hm, ih, List.mem_append, List.mem_cons,
        List.mem_singleton]
      tauto

theorem addUnseen_nodup (t : List Nat) (ms : List Nat) (hnd : t.Nodup) :
    (addUnseen t ms).Nodup := by
  induction ms generalizing t with
  | nil => simpa [addUnseen]
  | cons m ms ih =>
    by_cases hm : m ∈ t
    · simp only [addUnseen, if_pos hm]
      exact ih t hnd
    · simp only [addUnseen, if_neg hm]
      exact ih (t ++ [m]) (by simp [List.nodup_append, hnd, hm])

theorem tellMembersOnce_spec (ev : Nat → Event) (ms : List Nat)
    (t : List Nat) (evs : List Event) :
    tellMembersOnce ev ms t evs = (addUnseen t ms, evs ++ (newMem t ms).map ev) := by
  induction ms generalizing t evs with
  | nil => simp [tellMembersOnce, addUnseen, newMem]
  | cons m ms ih =>
    by_cases hm : m ∈ t
    · simp [tellMembersOnce, addUnseen, newMem, hm, ih]
    · simp [tellMembersOnce, addUnseen, newMem, hm, ih]

theorem unionAcc_eq_append (s : Server) (t : List Nat) (names : List String) :
    unionAcc s t names = t ++ unionNew s t names := by
  induction names generalizing t with
  | nil => simp [unionAcc, unionNew]
  | cons nm rest ih =>
    cases h : alookup s.channels nm with
    | none => simp [unionAcc, unionNew, h, ih]
    | some ch =>
      simp only [unionAcc, unionNew, h, ih]
      rw [addUnseen_eq_append]
      simp

theorem mem_unionAcc (s : Server) (t : List Nat) (names : List String) (k : Nat) :
    k ∈ unionAcc s t names ↔
      k ∈ t ∨ ∃ nm ∈ names, ∃ ch, alookup s.channels nm = some ch ∧ k ∈ ch.members := by
  induction names generalizing t with
  | nil => simp [unionAcc]
  | cons nm rest ih =>
    cases h : alookup s.channels nm with
    | none =>
      simp only [unionAcc, h, ih, List.mem_cons]
      constructor
      · rintro (hk | ⟨nm', hnm', h'⟩)
        · exact Or.inl hk
        · exact Or.inr ⟨nm', Or.inr hnm', h'⟩
      · rintro (hk | ⟨nm', hnm', ch, hch, hkm⟩)
        · exact Or.inl hk
        · rcases hnm' with rfl | hnm'
          · rw [h] at hch
            cases hch
          · exact Or.inr ⟨nm', hnm', ch, hch, hkm⟩
    | some ch =>
      simp only [unionAcc, h, ih, mem_addUnseen, List.mem_cons]
      constructor
      · rintro ((hk | hk) | ⟨nm', hnm', h'⟩)
        · exact Or.inl hk
        · exact Or.inr ⟨nm, Or.inl rfl, ch, h, hk⟩
        · exact Or.inr ⟨nm', Or.inr hnm', h'⟩
      · rintro (hk | ⟨nm', hnm', ch', hch, hkm⟩)
        · exact Or.inl (Or.inl hk)
        · rcases hnm' with rfl | hnm'
          · rw [h] at hch
            cases hch
            exact Or.inl (Or.inr hkm)
          · exact Or.inr ⟨nm', hnm', ch', hch, hkm⟩

theorem unionAcc_nodup (s : Server) (t : List Nat) (names : List String)
    (hnd : t.Nodup) : (unionAcc s t names).Nodup := by
  induction names generalizing t with
  | nil => simpa [unionAcc]
  | cons nm rest ih =>
    cases h : alookup s.channels nm with
    | none =>
      simp only [unionAcc, h]
      exact ih t hnd
    | some ch =>
      simp only [unionAcc, h]
      exact ih _ (addUnseen_nodup t ch.members hnd)

theorem informChannels_spec (s : Server) (ev : Nat → Event)
    (names : List String) (t : List Nat) (evs : List Event) :
    informChannels s ev names t evs =
      (unionAcc s t names, evs ++ (unionNew s t names).map ev) := by
  induction names generalizing t evs with
  | nil => simp [informChannels, unionAcc, unionNew]
  | cons nm rest ih =>
    cases h : alookup s.channels nm with
    | none => simp [informChannels, unionAcc, unionNew, h, ih]
    | some ch =>
      simp only [informChannels, h, tellMembersOnce_spec, ih, unionAcc, unionNew]
      simp

theorem unionAcc_congr (s1 s2 : Server) (t : List Nat) (names : List String)
    (h : ∀ nm ∈ names, alookup s1.channels nm = alookup s2.channels nm) :
    unionAcc s1 t names = unionAcc s2 t names := by
  induction names generalizing t with
  | nil => simp [unionAcc]
  | cons nm rest ih =>
    have hnm := h nm (List.mem_cons_self _ _)
    cases h2 : alookup s2.channels nm with
    | none =>
      simp only [unionAcc, hnm, h2]
      exact ih t fun nm' hm => h nm' (List.mem_cons_of_mem _ hm)
    | some ch =>
      simp only [unionAcc, hnm, h2]
      exact ih _ fun nm' hm => h nm' (List.mem_cons_of_mem _ hm)

theorem unionNew_congr (s1 s2 : Server) (t : List Nat) (names : List String)
    (h : ∀ nm ∈ names, alookup s1.channels nm = alookup s2.channels nm) :
    unionNew s1 t names = unionNew s2 t names := by
  induction names generalizing t with
  | nil => simp [unionNew]
  | cons nm rest ih =>
    have hnm := h nm (List.mem_cons_self _ _)
    cases h2 : alookup s2.channels nm with
    | none =>
      simp only [unionNew, hnm, h2]
      exact ih t fun nm' hm => h nm' (List.mem_cons_of_mem _ hm)
    | some ch =>
      simp only [unionNew, hnm, h2]
      rw [ih _ fun nm' hm => h nm' (List.mem_cons_of_mem _ hm)]

end Catbox


namespace Catbox

theorem quitChannels_spec (ev : Nat → Event) (cid : Nat) (names : List String) :
    ∀ (s : Server) (told : List Nat) (evs : List Event),
      names.Nodup →
      (∀ nm ch, alookup s.channels nm = some ch → ch.name = nm) →
      (akeys s.channels).Nodup →
      (quitChannels ev cid s names told evs).1 =
          { s with channels := (quitChannels ev cid s names told evs).1.channels } ∧
        (∀ nm, alookup (quitChannels ev cid s names told evs).1.channels nm =
          if nm ∈ names then eraseMember cid (alookup s.channels nm)
          else alookup s.channels nm) ∧
        (akeys (quitChannels ev cid s names told evs).1.channels).Nodup ∧
        (quitChannels ev cid s names told evs).2.1 = unionAcc s told names ∧
        (quitChannels ev cid s names told evs).2.2 =
          evs ++ (unionNew s told names).map ev := by
  induction names with
  | nil =>
    intro s told evs _ _ hkeys
    simp [quitChannels, unionAcc, unionNew]
    exact hkeys
  | cons name rest ih =>
    intro s told evs hnd hname hkeys
    rw [List.nodup_cons] at hnd
    cases h : alookup s.channels name with
    | none =>
      have hres := ih s told evs hnd.2 hname hkeys
      have hq : quitChannels ev cid s (name :: rest) told evs =
          quitChannels ev cid s rest told evs := by
        simp [quitChannels, h]
      rw [hq]
      refine ⟨hres.1, ?_, hres.2.2.1, ?_, ?_⟩
      · intro nm
        rw [hres.2.1 nm]
        by_cases hnm : nm = name
        · subst hnm
          simp [hnd.1, h, eraseMember]
        · by_cases hr : nm ∈ rest <;> simp [hr, hnm]
      · rw [hres.2.2.2.1]
        simp [unionAcc, h]
      · rw [hres.2.2.2.2]
        simp [unionNew, h]
    | some channel =>
      have hcn : channel.name = name := hname name channel h
      set s' : Server :=
        (if channel.members.erase cid = [] then
          { s with channels := aerase s.channels channel.name }
         else
          { s with channels :=
              ainsert s.channels name { channel with members := channel.members.erase cid } })
        with hs'
      have hq : quitChannels ev cid s (name :: rest) told evs =
          quitChannels ev cid s' rest (addUnseen told channel.members)
            (evs ++ (newMem told channel.members).map ev) := by
        simp only [quitChannels, h, tellMembersOnce_spec]
      have hem : eraseMember cid (some channel) =
          if channel.members.erase cid = [] then none
          else some { channel with members := channel.members.erase cid } := rfl
      have hlook : ∀ nm, nm ≠ name →
          alookup s'.channels nm = alookup s.channels nm := by
        intro nm hnm
        rw [hs']
        by_cases hms0 : channel.members.erase cid = []
        · simp only [if_pos hms0]
          rw [hcn]
          exact alookup_aerase_ne _ _ _ (fun hh => hnm hh.symm)
        · simp only [if_neg hms0]
          rw [alookup_ainsert, if_neg (fun hh => hnm hh.symm)]
      have hlookname : alookup s'.channels name = eraseMember cid (alookup s.channels name) := by
        rw [hs', h, hem]
        by_cases hms0 : channel.members.erase cid = []
        · simp only [if_pos hms0]
          rw [hcn]
          exact alookup_aerase_self _ hkeys _
        · simp only [if_neg hms0]
          rw [alookup_ainsert, if_pos rfl]
      have hname' : ∀ nm ch, alookup s'.channels nm = some ch → ch.name = nm := by
        intro nm ch hch
        by_cases hnm : nm = name
        · subst hnm
          rw [hlookname, h, hem] at hch
          by_cases hms0 : channel.members.erase cid = []
          · rw [if_pos hms0] at hch
            cases hch
          · rw [if_neg hms0] at hch
            cases hch
            exact hcn
        · rw [hlook nm hnm] at hch
          exact hname nm ch hch
      have hkeys' : (akeys s'.channels).Nodup := by
        rw [hs']
        by_cases hms0 : channel.members.erase cid = []
        · simp only [if_pos hms0]
          exact akeys_aerase_nodup _ _ hkeys
        · simp only [if_neg hms0]
          exact akeys_ainsert_nodup _ _ _ hkeys
      have hres := ih s' (addUnseen told channel.members)
        (evs ++ (newMem told channel.members).map ev) hnd.2 hname' hkeys'
      rw [hq]
      have hcong : ∀ nm ∈ rest, alookup s'.channels nm = alookup s.channels nm :=
        fun nm hm => hlook nm (fun hh => hnd.1 (hh ▸ hm))
      refine ⟨?_, ?_, hres.2.2.1, ?_, ?_⟩
      · rw [hres.1, hs']
        by_cases hms0 : channel.members.erase cid = [] <;> simp [hms0]
      · intro nm
        rw [hres.2.1 nm]
        by_cases hnm : nm = name
        · subst hnm
          have hr : nm ∉ rest := hnd.1
          simp only [if_neg hr, List.mem_cons, true_or, if_true]
          exact hlookname
        · by_cases hr : nm ∈ rest
          · simp only [if_pos hr, List.mem_cons, hr, or_true, if_true]
            rw [hlook nm hnm]
          · have hnc : nm ∉ (name :: rest) := by
              simp [hnm, hr]
            simp only [if_neg hr, if_neg hnc]
            exact hlook nm hnm
      · rw [hres.2.2.2.1]
        rw [unionAcc_congr s' s _ rest hcong]
        simp [unionAcc, h]
      · rw [hres.2.2.2.2]
        rw [unionNew_congr s' s _ rest hcong]
        simp [unionNew, h]

end Catbox

namespace Catbox

/-! ### Working with the invariant -/

theorem inv_channel_spec {s : Server} (hInv : Inv s) {nm : String} {ch : Channel}
    (h : alookup s.channels nm = some ch) :
    ch.name = nm ∧ ch.members ≠ [] ∧ ch.members.Nodup ∧
      (∀ k ∈ ch.members, ∃ cl, alookup s.clients k = some cl ∧ nm ∈ cl.channels) := by
  obtain ⟨hc, hn, hch, hchan, hcl⟩ := hInv
  have hp := hchan (nm, ch) (alookup_mem h)
  refine ⟨hp.1, hp.2.1, hp.2.2.1, ?_⟩
  intro k hk
  obtain ⟨q, hq, hq1, hq2⟩ := hp.2.2.2 k hk
  obtain ⟨k', cl⟩ := q
  subst hq1
  exact ⟨cl, mem_alookup hc hq, hq2⟩

theorem inv_client_spec {s : Server} (hInv : Inv s) {k : Nat} {cl : Client}
    (h : alookup s.clients k = some cl) :
    cl.id = k ∧ cl.channels.Nodup ∧ (cl.registered = false → cl.channels = []) ∧
      (∀ nm ∈ cl.channels, ∃ ch, alookup s.channels nm = some ch ∧ k ∈ ch.members) := by
  obtain ⟨hc, hn, hch, hchan, hcl⟩ := hInv
  have hq := hcl (k, cl) (alookup_mem h)
  refine ⟨hq.1, hq.2.1, hq.2.2.1, ?_⟩
  intro nm hnm
  obtain ⟨p, hp, hp1, hp2⟩ := hq.2.2.2 nm hnm
  obtain ⟨nm', ch⟩ := p
  subst hp1
  exact ⟨ch, mem_alookup hch hp, hp2⟩

theorem inv_update_client {s : Server} (hInv : Inv s) {k : Nat} {cl cl' : Client}
    (h : alookup s.clients k = some cl)
    (hid : cl'.id = k) (hch : cl'.channels = cl.channels)
    (hreg : cl'.registered = false → cl.registered = false) :
    Inv { s with clients := ainsert s.clients k cl' } := by
  obtain ⟨hc, hn, hchk, hchan, hcl⟩ := hInv
  have hclmem : (k, cl) ∈ s.clients := alookup_mem h
  have hclk := hcl (k, cl) hclmem
  refine ⟨akeys_ainsert_nodup _ _ _ hc, hn, hchk, ?_, ?_⟩
  · intro p hp
    have hp' := hchan p hp
    refine ⟨hp'.1, hp'.2.1, hp'.2.2.1, ?_⟩
    intro m hm
    obtain ⟨q, hq, hq1, hq2⟩ := hp'.2.2.2 m hm
    by_cases hqk : q.1 = k
    · have : q = (k, cl) := by
        obtain ⟨k', v⟩ := q
        simp only at hqk
        subst hqk
        have := mem_alookup hc hq
        rw [h] at this
        cases this
        rfl
      subst this
      refine ⟨(k, cl'), ?_, hq1, ?_⟩
      · rw [mem_ainsert hc]
        exact Or.inl rfl
      · simpa [hch] using hq2
    · refine ⟨q, ?_, hq1, hq2⟩
      rw [mem_ainsert hc]
      exact Or.inr ⟨hq, hqk⟩
  · intro q hq
    rw [mem_ainsert hc] at hq
    rcases hq with rfl | ⟨hq, hqk⟩
    · refine ⟨hid, ?_, ?_, ?_⟩
      · rw [hch]
        exact hclk.2.1
      · intro hr
        rw [hch]
        exact hclk.2.2.1 (hreg hr)
      · intro nm hnm
        rw [hch] at hnm
        exact hclk.2.2.2 nm hnm
    · have hq' := hcl q hq
      refine ⟨hq'.1, hq'.2.1, hq'.2.2.1, hq'.2.2.2⟩

end Catbox

namespace Catbox

/-! ### Claim C4: nickname collision -/

/-- Claim C4: a NICK command carrying a valid nickname whose canonical form
is already present in the nick index is answered with numeric 432 and the
text `Nickname is already in use`, and the command returns the server state
untouched: in particular the nick index and the sender's stored nick are
unchanged. -/
theorem nick_in_use_rejected (s : Server) (c : Client) (m : Message)
    (nick : String) (rest : List String) (tid : Nat)
    (hp : m.params = nick :: rest)
    (hv : isValidNick nick = true)
    (hdup : alookup s.nicks (canonicalizeNick nick) = some tid) :
    nickCommand s c m =
      (s, [serverMessage s c "432" [nick, "Nickname is already in use"]]) := by
  simp [nickCommand, hp, hv, hdup]

/-- Witness for C4: carl, unregistered, asks for the taken nick `alice`. -/
theorem nick_in_use_rejected_witness :
    nickCommand sampleServer carlC ⟨"", "NICK", ["alice"]⟩ =
      (sampleServer,
       [serverMessage sampleServer carlC "432" ["alice", "Nickname is already in use"]]) :=
  nick_in_use_rejected sampleServer carlC ⟨"", "NICK", ["alice"]⟩ "alice" [] 1
    rfl (by decide) (by decide)

/-! ### Claim C10: USER stores the user name before validating the realname -/

/-- Claim C10: when USER from an unregistered client with a nick and
exactly four parameters is rejected only because the real name exceeds 64
bytes, the reply is `ERROR :Invalid realname`, and the client record in the
returned state has its user name already overwritten with the submitted
user parameter: the failing command does not leave the client unchanged. -/
theorem user_invalid_realname_overwrites_user (s : Server) (c : Client)
    (m : Message) (user mode unused realname : String)
    (hreg : c.registered = false)
    (hnick : byteLen c.nick ≠ 0)
    (hp : m.params = [user, mode, unused, realname])
    (hu : isValidUser user = true)
    (hr : 64 < byteLen realname) :
    userCommand s c m =
      ({ s with clients := ainsert s.clients c.id { c with user := user } },
       [serverMessage s { c with user := user } "ERROR" ["Invalid realname"]]) := by
  simp [userCommand, hreg, hnick, hp, hu, hr, setClient, serverMessage, getConfig]

/-- Witness for C10: carl submits a valid user name and a 65-byte realname;
the rejection still overwrites the stored user name. -/
theorem user_invalid_realname_overwrites_user_witness :
    userCommand sampleServer carlC
        ⟨"", "USER", ["carl", "0", "*", String.mk (List.replicate 65 'x')]⟩ =
      ({ sampleServer with
          clients := ainsert sampleServer.clients carlC.id { carlC with user := "carl" } },
       [serverMessage sampleServer { carlC with user := "carl" } "ERROR"
          ["Invalid realname"]]) :=
  user_invalid_realname_overwrites_user sampleServer carlC
    ⟨"", "USER", ["carl", "0", "*", String.mk (List.replicate 65 'x')]⟩
    "carl" "0" "*" (String.mk (List.replicate 65 'x'))
    (by decide) (by decide) rfl (by decide) (by decide)

end Catbox

namespace Catbox

/-! ### Claim C1: commands available before registration -/

/-- Claim C1 counterexample: the dispatcher does not accept QUIT from an
unregistered client; the command draws numeric 451 `You have not
registered.` and the client stays in the client index with only its
activity time updated, instead of the quit procedure running.  The same
holds for PONG.  This refutes the claim that exactly NICK, USER, CAP, QUIT
and PONG are accepted before registration. -/
theorem unregistered_quit_draws_451 :
    handleMessage 7 sampleServer 3 ⟨"", "QUIT", []⟩ =
      ({ sampleServer with
          clients := ainsert sampleServer.clients 3 { carlC with lastActivityTime := 7 } },
       [Event.send 3 ⟨"irc.example.com", "451", ["carl", "You have not registered."]⟩]) := by
  decide

/-- Claim C1 (amended): before registration the dispatcher accepts exactly
NICK, USER and CAP; every other command — QUIT and PONG included — draws
numeric 451 with text `You have not registered.` and has no effect beyond
the common preamble's update of the client's activity time. -/
theorem unregistered_only_nick_user_cap (now : Nat) (s : Server) (cid : Nat)
    (c : Client) (m : Message)
    (hc : alookup s.clients cid = some c)
    (hreg : c.registered = false)
    (hpfx : m.pfx = "")
    (h1 : m.command ≠ "CAP") (h2 : m.command ≠ "NICK") (h3 : m.command ≠ "USER") :
    handleMessage now s cid m =
      ({ s with clients := ainsert s.clients c.id { c with lastActivityTime := now } },
       [serverMessage s { c with lastActivityTime := now } "451"
          ["You have not registered."]]) := by
  simp [handleMessage, hc, hpfx, h1, h2, h3, hreg, setClient, serverMessage, getConfig]

/-- Witness for the amended C1: carl, unregistered, sends PONG and draws
451. -/
theorem unregistered_only_nick_user_cap_witness :
    handleMessage 7 sampleServer 3 ⟨"", "PONG", []⟩ =
      ({ sampleServer with
          clients := ainsert sampleServer.clients 3 { carlC with lastActivityTime := 7 } },
       [serverMessage sampleServer { carlC with lastActivityTime := 7 } "451"
          ["You have not registered."]]) :=
  unregistered_only_nick_user_cap 7 sampleServer 3 carlC ⟨"", "PONG", []⟩
    rfl (by decide) rfl (by decide) (by decide) (by decide)

/-! ### Claim C8: the PRIVMSG truncation index -/

set_option maxRecDepth 100000 in
/-- Claim C8 refutation evidence: a concrete sender identity, target and
text for which the encoded PRIVMSG line exceeds the codec limit while the
computed cut index `len(msg) - trimCount` is negative, so the Go slice
`msg[:len(msg)-trimCount]` is out of bounds (a run-time panic) rather than
a truncation of the text's tail. -/
theorem privmsg_cut_index_out_of_bounds :
    maxLineLength <
        1 + byteLen "alice!~alice@10.0.0.1" + 9 +
          byteLen (String.mk (List.replicate 500 'a')) + 1 + 1 + byteLen "" + 2 ∧
      privmsgCutIndex "alice!~alice@10.0.0.1" (String.mk (List.replicate 500 'a')) "" < 0 := by
  constructor
  · decide
  · decide

/-! ### Claim C9: the heartbeat sweep, per client -/

/-- Claim C9: the action `checkAndPingClients` takes for one client.  A
registered client is skipped when `idle < pingPeriod`; quit with reason
`Ping timeout: <idle> seconds` when instead `idle > deadPeriod`; otherwise
it is sent `PING <server-name>` with `lastPing` updated exactly when
`sincePing ≥ pingPeriod`.  An unregistered client is quit with reason
`Idle too long.` exactly when `idle > deadPeriod`, and is untouched
otherwise. -/
theorem heartbeat_per_client (now : Nat) (s : Server) (cid : Nat) (client : Client)
    (hc : alookup s.clients cid = some client) :
    (client.registered = true →
      ((now - client.lastActivityTime < s.pingTime → pingStep now s cid = (s, [])) ∧
       (¬ now - client.lastActivityTime < s.pingTime →
        s.deadTime < now - client.lastActivityTime →
          pingStep now s cid =
            quit s cid ("Ping timeout: " ++
              toString ((now - client.lastActivityTime) / 1000000000) ++ " seconds")) ∧
       (¬ now - client.lastActivityTime < s.pingTime →
        ¬ s.deadTime < now - client.lastActivityTime →
          ((s.pingTime ≤ now - client.lastPingTime →
             pingStep now s cid =
               ({ s with clients := ainsert s.clients cid { client with lastPingTime := now } },
                [serverMessage s client "PING" [getConfig s "server-name"]])) ∧
           (now - client.lastPingTime < s.pingTime → pingStep now s cid = (s, [])))))) ∧
    (client.registered = false →
      ((s.deadTime < now - client.lastActivityTime →
         pingStep now s cid = quit s cid "Idle too long.") ∧
       (¬ s.deadTime < now - client.lastActivityTime → pingStep now s cid = (s, [])))) := by
  constructor
  · intro hreg
    refine ⟨?_, ?_, ?_⟩
    · intro h1
      simp [pingStep, hc, hreg, h1]
    · intro h1 h2
      simp [pingStep, hc, hreg, h1, h2]
    · intro h1 h2
      constructor
      · intro h3
        have h3' : ¬ now - client.lastPingTime < s.pingTime := Nat.not_lt.mpr h3
        simp [pingStep, hc, hreg, h1, h2, h3']
      · intro h3
        simp [pingStep, hc, hreg, h1, h2, h3]
  · intro hreg
    constructor
    · intro h1
      simp [pingStep, hc, hreg, h1]
    · intro h1
      simp [pingStep, hc, hreg, h1]

/-- Witness for C9: with alice idle beyond the dead period, the heartbeat
quits her with the ping-timeout reason; the hypotheses are discharged on
the sample state at time 250 seconds. -/
theorem heartbeat_per_client_witness :
    (aliceC.registered = true →
      ((250000000000 - aliceC.lastActivityTime < sampleServer.pingTime →
          pingStep 250000000000 sampleServer 1 = (sampleServer, [])) ∧
       (¬ 250000000000 - aliceC.lastActivityTime < sampleServer.pingTime →
        sampleServer.deadTime < 250000000000 - aliceC.lastActivityTime →
          pingStep 250000000000 sampleServer 1 =
            quit sampleServer 1 ("Ping timeout: " ++
              toString ((250000000000 - aliceC.lastActivityTime) / 1000000000) ++ " seconds")) ∧
       (¬ 250000000000 - aliceC.lastActivityTime < sampleServer.pingTime →
        ¬ sampleServer.deadTime < 250000000000 - aliceC.lastActivityTime →
          ((sampleServer.pingTime ≤ 250000000000 - aliceC.lastPingTime →
             pingStep 250000000000 sampleServer 1 =
               ({ sampleServer with
                   clients := ainsert sampleServer.clients 1
                     { aliceC with lastPingTime := 250000000000 } },
                [serverMessage sampleServer aliceC "PING"
                   [getConfig sampleServer "server-name"]])) ∧
           (250000000000 - aliceC.lastPingTime < sampleServer.pingTime →
             pingStep 250000000000 sampleServer 1 = (sampleServer, [])))))) ∧
    (aliceC.registered = false →
      ((sampleServer.deadTime < 250000000000 - aliceC.lastActivityTime →
         pingStep 250000000000 sampleServer 1 = quit sampleServer 1 "Idle too long.") ∧
       (¬ sampleServer.deadTime < 250000000000 - aliceC.lastActivityTime →
         pingStep 250000000000 sampleServer 1 = (sampleServer, [])))) :=
  heartbeat_per_client 250000000000 sampleServer 1 aliceC rfl

end Catbox

namespace Catbox

/-! ### Characterizing JOIN and PART -/

theorem joinCommand_eq (s : Server) (c : Client) (m : Message)
    (p0 : String) (rest : List String)
    (hp : m.params = p0 :: rest)
    (hp0 : ¬ (rest = [] ∧ p0 = "0"))
    (hv : isValidChannel (canonicalizeChannel p0) = true)
    (hmem : canonicalizeChannel p0 ∉ c.channels)
    (hnotm : c.id ∉ ((alookup s.channels (canonicalizeChannel p0)).getD
      { name := canonicalizeChannel p0, members := [] }).members) :
    joinCommand s c m = joinSpecResult s c (canonicalizeChannel p0) := by
  cases hch : alookup s.channels (canonicalizeChannel p0) with
  | none =>
    rw [hch] at hnotm
    simp only [joinCommand, hp, if_neg hp0]
    simp [hv, hmem, hch, joinSpecResult, setClient]
  | some ch0 =>
    rw [hch] at hnotm
    simp only [Option.getD_some] at hnotm
    simp only [joinCommand, hp, if_neg hp0]
    simp [hv, hmem, hch, hnotm, joinSpecResult, setClient]

theorem part_success_eq (s : Server) (cid : Nat) (nm0 msg : String)
    (c : Client) (channel : Channel)
    (hc : alookup s.clients cid = some c)
    (hv : isValidChannel (canonicalizeChannel nm0) = true)
    (hch : alookup s.channels (canonicalizeChannel nm0) = some channel)
    (hon : channel.name ∈ c.channels) :
    part s cid nm0 msg =
      (let ms := channel.members.erase c.id
       let chNew := { channel with members := ms }
       let c1 := { c with channels := c.channels.erase channel.name }
       let s1 := { s with clients := ainsert s.clients c.id c1 }
       (if ms = [] then { s1 with channels := aerase s1.channels channel.name }
        else { s1 with channels := ainsert s1.channels (canonicalizeChannel nm0) chNew },
        channel.members.map fun mid =>
          clientMessage c mid "PART"
            (canonicalizeChannel nm0 ::
              (if 0 < byteLen msg then [msg] else [])))) := by
  simp only [part, hc]
  simp [hv, hch, hon, setClient]

end Catbox

namespace Catbox

/-! ### The broadcast recipient set of NICK and QUIT -/

theorem recips_spec (s : Server) (c : Client)
    (hInv : Inv s) (hc : alookup s.clients c.id = some c) :
    (if c.id ∈ unionAcc s [] c.channels then unionAcc s [] c.channels
     else unionAcc s [] c.channels ++ [c.id]).Nodup ∧
    (∀ k, k ∈ (if c.id ∈ unionAcc s [] c.channels then unionAcc s [] c.channels
               else unionAcc s [] c.channels ++ [c.id]) ↔
      ((∃ nm ∈ c.channels, ∃ ch, alookup s.channels nm = some ch ∧ k ∈ ch.members) ∨
       (c.channels = [] ∧ k = c.id))) := by
  have hnd : (unionAcc s [] c.channels).Nodup :=
    unionAcc_nodup s [] c.channels List.nodup_nil
  by_cases hcid : c.id ∈ unionAcc s [] c.channels
  · rw [if_pos hcid]
    refine ⟨hnd, ?_⟩
    intro k
    rw [mem_unionAcc]
    simp only [List.not_mem_nil, false_or]
    constructor
    · exact fun h => Or.inl h
    · rintro (h | ⟨hempty, rfl⟩)
      · exact h
      · rw [hempty] at hcid
        simp [unionAcc] at hcid
  · rw [if_neg hcid]
    have hempty : c.channels = [] := by
      by_contra hne
      cases hch : c.channels with
      | nil => exact hne hch
      | cons nm rest =>
        obtain ⟨ch, hlk, hm⟩ := (inv_client_spec hInv hc).2.2.2 nm (by rw [hch]; simp)
        apply hcid
        rw [mem_unionAcc]
        exact Or.inr ⟨nm, by rw [hch]; simp, ch, hlk, hm⟩
    refine ⟨?_, ?_⟩
    · simp [List.nodup_append, hnd, hcid]
    · intro k
      rw [List.mem_append, mem_unionAcc]
      simp only [List.not_mem_nil, false_or, List.mem_singleton]
      constructor
      · rintro (h | rfl)
        · exact Or.inl h
        · exact Or.inr ⟨hempty, rfl⟩
      · rintro (h | ⟨_, rfl⟩)
        · exact Or.inl h
        · exact Or.inr rfl

theorem unionAcc_set_nicks (s : Server) (n' : List (String × Nat))
    (t : List Nat) (names : List String) :
    unionAcc { s with nicks := n' } t names = unionAcc s t names :=
  unionAcc_congr _ _ _ _ (fun _ _ => rfl)

theorem unionNew_set_nicks (s : Server) (n' : List (String × Nat))
    (t : List Nat) (names : List String) :
    unionNew { s with nicks := n' } t names = unionNew s t names :=
  unionNew_congr _ _ _ _ (fun _ _ => rfl)

/-! ### Characterizing a successful registered NICK change -/

theorem nickCommand_registered_eq (s : Server) (c : Client) (m : Message)
    (nick : String) (rest : List String)
    (hp : m.params = nick :: rest)
    (hv : isValidNick nick = true)
    (hfree : alookup s.nicks (canonicalizeNick nick) = none)
    (hreg : c.registered = true) :
    nickCommand s c m =
      (let s2 :=
        (if 0 < byteLen c.nick then
          { s with nicks := aerase (ainsert s.nicks (canonicalizeNick nick) c.id) (canonicalizeNick c.nick) }
         else { s with nicks := ainsert s.nicks (canonicalizeNick nick) c.id })
       ({ s2 with clients := ainsert s2.clients c.id { c with nick := nick } },
        (if c.id ∈ unionAcc s [] c.channels then unionAcc s [] c.channels
         else unionAcc s [] c.channels ++ [c.id]).map
          (fun mid => Event.send mid ⟨nickUhost c, "NICK", [nick]⟩))) := by
  obtain ⟨mpfx, mcmd, mparams⟩ := m
  simp only at hp
  subst hp
  have huu : unionNew s [] c.channels = unionAcc s [] c.channels := by
    rw [unionAcc_eq_append]
    simp
  by_cases hbl : 0 < byteLen c.nick
  · by_cases hcid : c.id ∈ unionAcc s [] c.channels <;>
      simp [nickCommand, hv, hfree, hbl, hreg, informChannels_spec, setClient,
        unionAcc_set_nicks, unionNew_set_nicks, huu, hcid, clientMessage]
  · by_cases hcid : c.id ∈ unionAcc s [] c.channels <;>
      simp [nickCommand, hv, hfree, hbl, hreg, informChannels_spec, setClient,
        unionAcc_set_nicks, unionNew_set_nicks, huu, hcid, clientMessage]

end Catbox

namespace Catbox

/-! ### Claim C5: JOIN contract -/

/-- Claim C5: a registered client joining a valid channel it is not on gets
exactly the spec-side result `joinSpecResult`: channel created if absent,
membership recorded on both sides, then the JOIN echo, one 353 per current
member, one 366, and a JOIN to every other member, in this order; a client
already on the channel gets only `ERROR :You are on that channel` and the
state is unchanged. -/
theorem join_contract (s : Server) (c : Client) (m : Message)
    (p0 : String) (rest : List String)
    (hInv : Inv s)
    (hc : alookup s.clients c.id = some c)
    (hreg : c.registered = true)
    (hp : m.params = p0 :: rest)
    (hv : isValidChannel (canonicalizeChannel p0) = true) :
    (canonicalizeChannel p0 ∉ c.channels →
      joinCommand s c m = joinSpecResult s c (canonicalizeChannel p0)) ∧
    (canonicalizeChannel p0 ∈ c.channels →
      joinCommand s c m =
        (s, [serverMessage s c "ERROR" ["You are on that channel"]])) := by
  have hp0 : ¬ (rest = [] ∧ p0 = "0") := by
    rintro ⟨hr, hzero⟩
    rw [hzero] at hv
    exact absurd hv (by decide)
  constructor
  · intro hmem
    apply joinCommand_eq s c m p0 rest hp hp0 hv hmem
    cases hch : alookup s.channels (canonicalizeChannel p0) with
    | none => simp
    | some ch0 =>
      simp only [Option.getD_some]
      intro hin
      obtain ⟨cl, hcl, hnm⟩ := (inv_channel_spec hInv hch).2.2.2 c.id hin
      rw [hc] at hcl
      cases hcl
      exact hmem hnm
  · intro hmem
    obtain ⟨mpfx, mcmd, mparams⟩ := m
    simp only at hp
    subst hp
    simp only [joinCommand, if_neg hp0]
    simp [hv, hmem]

/-- Witness for C5: alice joins the fresh channel `#new` (success branch);
the already-member branch is vacuous for this input. -/
theorem join_contract_witness :
    (canonicalizeChannel "#new" ∉ aliceC.channels →
      joinCommand sampleServer aliceC ⟨"", "JOIN", ["#new"]⟩ =
        joinSpecResult sampleServer aliceC (canonicalizeChannel "#new")) ∧
    (canonicalizeChannel "#new" ∈ aliceC.channels →
      joinCommand sampleServer aliceC ⟨"", "JOIN", ["#new"]⟩ =
        (sampleServer,
         [serverMessage sampleServer aliceC "ERROR" ["You are on that channel"]])) :=
  join_contract sampleServer aliceC ⟨"", "JOIN", ["#new"]⟩ "#new" []
    (by decide) rfl rfl rfl (by decide)

/-! ### Claim C2: NICK change broadcast -/

/-- Claim C2: a successful NICK change by a registered client is broadcast
through a duplicate-free recipient list whose members are exactly the union
of the members of the client's channels — or the client itself when it is
on no channel — one NICK message per recipient, every message carrying the
old `nick!~user@ip` as source prefix; the stored nick in the resulting
state is the new one (so the update happened only after the messages were
built). -/
theorem nick_change_broadcast (s : Server) (c : Client) (m : Message)
    (nick : String) (rest : List String)
    (hInv : Inv s)
    (hc : alookup s.clients c.id = some c)
    (hreg : c.registered = true)
    (hp : m.params = nick :: rest)
    (hv : isValidNick nick = true)
    (hfree : alookup s.nicks (canonicalizeNick nick) = none) :
    ∃ recips : List Nat,
      (nickCommand s c m).2 =
        recips.map (fun mid => Event.send mid ⟨nickUhost c, "NICK", [nick]⟩) ∧
      recips.Nodup ∧
      (∀ k, k ∈ recips ↔
        ((∃ nm ∈ c.channels, ∃ ch, alookup s.channels nm = some ch ∧ k ∈ ch.members) ∨
         (c.channels = [] ∧ k = c.id))) ∧
      alookup (nickCommand s c m).1.clients c.id = some { c with nick := nick } := by
  refine ⟨(if c.id ∈ unionAcc s [] c.channels then unionAcc s [] c.channels
           else unionAcc s [] c.channels ++ [c.id]), ?_,
          (recips_spec s c hInv hc).1, (recips_spec s c hInv hc).2, ?_⟩
  · rw [nickCommand_registered_eq s c m nick rest hp hv hfree hreg]
  · rw [nickCommand_registered_eq s c m nick rest hp hv hfree hreg]
    by_cases hbl : 0 < byteLen c.nick <;>
      simp [hbl, alookup_ainsert]

/-- Witness for C2: alice renames to `alicia` while on `#lobby` with bob. -/
theorem nick_change_broadcast_witness :
    ∃ recips : List Nat,
      (nickCommand sampleServer aliceC ⟨"", "NICK", ["alicia"]⟩).2 =
        recips.map (fun mid => Event.send mid ⟨nickUhost aliceC, "NICK", ["alicia"]⟩) ∧
      recips.Nodup ∧
      (∀ k, k ∈ recips ↔
        ((∃ nm ∈ aliceC.channels, ∃ ch,
            alookup sampleServer.channels nm = some ch ∧ k ∈ ch.members) ∨
         (aliceC.channels = [] ∧ k = aliceC.id))) ∧
      alookup (nickCommand sampleServer aliceC ⟨"", "NICK", ["alicia"]⟩).1.clients
          aliceC.id = some { aliceC with nick := "alicia" } :=
  nick_change_broadcast sampleServer aliceC ⟨"", "NICK", ["alicia"]⟩ "alicia" []
    (by decide) rfl rfl rfl (by decide) (by decide)

end Catbox

namespace Catbox

/-! ### Claim C3: the client-quit procedure -/

/-- Claim C3: quitting a registered client broadcasts `QUIT :msg` with the
quitting client's prefix through a duplicate-free recipient list that is
exactly the union of the members of its channels (the client itself when it
is on no channel), then sends `ERROR :msg` from the server and closes the
outbox; in the resulting state the client is a member of no channel, each
channel emptied by the removal is deleted (all others keep their remaining
members), the nickname is released, and the client is gone from the client
index. -/
theorem quit_contract (s : Server) (c : Client) (msg : String)
    (hInv : Inv s)
    (hc : alookup s.clients c.id = some c)
    (hreg : c.registered = true) :
    ∃ recips : List Nat,
      (quit s c.id msg).2 =
        recips.map (fun mid => Event.send mid ⟨nickUhost c, "QUIT", [msg]⟩)
        ++ [Event.send c.id ⟨getConfig s "server-name", "ERROR", [msg]⟩,
            Event.closeOutbox c.id] ∧
      recips.Nodup ∧
      (∀ k, k ∈ recips ↔
        ((∃ nm ∈ c.channels, ∃ ch, alookup s.channels nm = some ch ∧ k ∈ ch.members) ∨
         (c.channels = [] ∧ k = c.id))) ∧
      (∀ nm, alookup (quit s c.id msg).1.channels nm =
        if nm ∈ c.channels then eraseMember c.id (alookup s.channels nm)
        else alookup s.channels nm) ∧
      (∀ nm ch, alookup (quit s c.id msg).1.channels nm = some ch → c.id ∉ ch.members) ∧
      alookup (quit s c.id msg).1.nicks (canonicalizeNick c.nick) = none ∧
      alookup (quit s c.id msg).1.clients c.id = none := by
  have hchnd : c.channels.Nodup := (inv_client_spec hInv hc).2.1
  have hname : ∀ nm ch, alookup s.channels nm = some ch → ch.name = nm :=
    fun nm ch h => (inv_channel_spec hInv h).1
  have hkeys : (akeys s.channels).Nodup := hInv.2.2.1
  have hspec := quitChannels_spec (fun mid => clientMessage c mid "QUIT" [msg]) c.id
    c.channels s [] [] hchnd hname hkeys
  obtain ⟨⟨Qs, Qt, Qe⟩, hQ⟩ :
      ∃ q, quitChannels (fun mid => clientMessage c mid "QUIT" [msg]) c.id
        s c.channels [] [] = q := ⟨_, rfl⟩
  rw [hQ] at hspec
  obtain ⟨heta, hform, hknd, htold, hevs⟩ := hspec
  simp only at htold hevs
  subst htold
  subst hevs
  dsimp only at heta hform hknd
  have hcfg : Qs.config = s.config := by rw [heta]
  have hnicks : Qs.nicks = s.nicks := by rw [heta]
  have hclients : Qs.clients = s.clients := by rw [heta]
  have huu : unionNew s [] c.channels = unionAcc s [] c.channels := by
    rw [unionAcc_eq_append]
    simp
  have hq2 : quit s c.id msg =
      ({ Qs with nicks := aerase Qs.nicks (canonicalizeNick c.nick),
                 clients := aerase Qs.clients c.id },
       (if c.id ∈ unionAcc s [] c.channels then
          ([] ++ (unionNew s [] c.channels).map
            (fun mid => clientMessage c mid "QUIT" [msg]))
        else ([] ++ (unionNew s [] c.channels).map
            (fun mid => clientMessage c mid "QUIT" [msg]))
          ++ [clientMessage c c.id "QUIT" [msg]])
       ++ [serverMessage { Qs with nicks := aerase Qs.nicks (canonicalizeNick c.nick) }
             c "ERROR" [msg],
           Event.closeOutbox c.id]) := by
    simp only [quit, hc, hreg, if_true, hQ]
  refine ⟨(if c.id ∈ unionAcc s [] c.channels then unionAcc s [] c.channels
           else unionAcc s [] c.channels ++ [c.id]), ?_,
          (recips_spec s c hInv hc).1, (recips_spec s c hInv hc).2, ?_, ?_, ?_, ?_⟩
  · rw [hq2]
    have hsm : serverMessage { Qs with nicks := aerase Qs.nicks (canonicalizeNick c.nick) }
        c "ERROR" [msg] = Event.send c.id ⟨getConfig s "server-name", "ERROR", [msg]⟩ := by
      simp [serverMessage, show isNumericCmd "ERROR" = false from by decide, getConfig, hcfg]
    rw [hsm]
    by_cases hcid : c.id ∈ unionAcc s [] c.channels <;>
      simp [hcid, huu, clientMessage]
  · intro nm
    rw [hq2]
    exact hform nm
  · intro nm ch hlk
    rw [hq2] at hlk
    simp only at hlk
    rw [hform nm] at hlk
    by_cases hnm : nm ∈ c.channels
    · rw [if_pos hnm] at hlk
      cases hsch : alookup s.channels nm with
      | none =>
        rw [hsch] at hlk
        rw [show eraseMember c.id none = none from rfl] at hlk
        cases hlk
      | some ch0 =>
        rw [hsch] at hlk
        have hred : eraseMember c.id (some ch0) =
            if ch0.members.erase c.id = [] then none
            else some { ch0 with members := ch0.members.erase c.id } := rfl
        by_cases hms0 : ch0.members.erase c.id = []
        · rw [hred, if_pos hms0] at hlk
          cases hlk
        · rw [hred, if_neg hms0] at hlk
          cases hlk
          intro hin
          have hnd0 : ch0.members.Nodup := (inv_channel_spec hInv hsch).2.2.1
          rw [List.Nodup.mem_erase_iff hnd0] at hin
          exact hin.1 rfl
    · rw [if_neg hnm] at hlk
      intro hin
      obtain ⟨cl, hcl, hnmm⟩ := (inv_channel_spec hInv hlk).2.2.2 c.id hin
      rw [hc] at hcl
      cases hcl
      exact hnm hnmm
  · rw [hq2]
    simp only
    rw [hnicks]
    exact alookup_aerase_self _ hInv.2.1 _
  · rw [hq2]
    simp only
    rw [hclients]
    exact alookup_aerase_self _ hInv.1 _

end Catbox

namespace Catbox

/-- Witness for C3: alice quits while on `#lobby` with bob. -/
theorem quit_contract_witness :
    ∃ recips : List Nat,
      (quit sampleServer aliceC.id "Quit: bye").2 =
        recips.map (fun mid => Event.send mid ⟨nickUhost aliceC, "QUIT", ["Quit: bye"]⟩)
        ++ [Event.send aliceC.id
              ⟨getConfig sampleServer "server-name", "ERROR", ["Quit: bye"]⟩,
            Event.closeOutbox aliceC.id] ∧
      recips.Nodup ∧
      (∀ k, k ∈ recips ↔
        ((∃ nm ∈ aliceC.channels, ∃ ch,
            alookup sampleServer.channels nm = some ch ∧ k ∈ ch.members) ∨
         (aliceC.channels = [] ∧ k = aliceC.id))) ∧
      (∀ nm, alookup (quit sampleServer aliceC.id "Quit: bye").1.channels nm =
        if nm ∈ aliceC.channels then
          eraseMember aliceC.id (alookup sampleServer.channels nm)
        else alookup sampleServer.channels nm) ∧
      (∀ nm ch, alookup (quit sampleServer aliceC.id "Quit: bye").1.channels nm = some ch →
        aliceC.id ∉ ch.members) ∧
      alookup (quit sampleServer aliceC.id "Quit: bye").1.nicks
        (canonicalizeNick aliceC.nick) = none ∧
      alookup (quit sampleServer aliceC.id "Quit: bye").1.clients aliceC.id = none :=
  quit_contract sampleServer aliceC "Quit: bye" (by decide) rfl rfl

end Catbox

namespace Catbox

/-! ### Invariant preservation: removing a membership (PART) -/

theorem inv_remove_membership (s : Server) (c : Client) (nm : String) (channel : Channel)
    (hInv : Inv s)
    (hc : alookup s.clients c.id = some c)
    (hch : alookup s.channels nm = some channel) :
    Inv (if channel.members.erase c.id = [] then
          { s with clients := ainsert s.clients c.id { c with channels := c.channels.erase channel.name }, channels := aerase s.channels channel.name }
         else
          { s with clients := ainsert s.clients c.id { c with channels := c.channels.erase channel.name }, channels := ainsert s.channels nm { channel with members := channel.members.erase c.id } }) := by
  have hcn : channel.name = nm := (inv_channel_spec hInv hch).1
  have hchnd : channel.members.Nodup := (inv_channel_spec hInv hch).2.2.1
  obtain ⟨hkc, hkn, hkch, hchan, hcl⟩ := hInv
  have hclc := hcl (c.id, c) (alookup_mem hc)
  have hccnd : c.channels.Nodup := hclc.2.1
  have hchmem : (nm, channel) ∈ s.channels := alookup_mem hch
  by_cases hms : channel.members.erase c.id = []
  · rw [if_pos hms]
    refine ⟨akeys_ainsert_nodup _ _ _ hkc, hkn, akeys_aerase_nodup _ _ hkch, ?_, ?_⟩
    · intro p hp
      rw [mem_aerase hkch] at hp
      obtain ⟨hp, hpne⟩ := hp
      have hp' := hchan p hp
      refine ⟨hp'.1, hp'.2.1, hp'.2.2.1, ?_⟩
      intro k hk
      obtain ⟨q, hq, hq1, hq2⟩ := hp'.2.2.2 k hk
      by_cases hqk : q.1 = c.id
      · have hqe : q = (c.id, c) := by
          obtain ⟨k', v⟩ := q
          simp only at hqk
          subst hqk
          have := mem_alookup hkc hq
          rw [hc] at this
          cases this
          rfl
        subst hqe
        refine ⟨(c.id, { c with channels := c.channels.erase channel.name }), ?_, hq1, ?_⟩
        · rw [mem_ainsert hkc]
          exact Or.inl rfl
        · simp only
          rw [List.mem_erase_of_ne hpne]
          exact hq2
      · refine ⟨q, ?_, hq1, hq2⟩
        rw [mem_ainsert hkc]
        exact Or.inr ⟨hq, hqk⟩
    · intro q hq
      rw [mem_ainsert hkc] at hq
      rcases hq with rfl | ⟨hq, hqk⟩
      · refine ⟨hclc.1, hccnd.erase _, ?_, ?_⟩
        · intro hr
          simp only at hr ⊢
          rw [hclc.2.2.1 hr]
          rfl
        · intro nm' hnm'
          simp only at hnm'
          rw [hccnd.mem_erase_iff] at hnm'
          obtain ⟨p, hp, hp1, hp2⟩ := hclc.2.2.2 nm' hnm'.2
          refine ⟨p, ?_, hp1, hp2⟩
          rw [mem_aerase hkch]
          refine ⟨hp, ?_⟩
          rw [hp1]
          exact hnm'.1
      · have hq' := hcl q hq
        refine ⟨hq'.1, hq'.2.1, hq'.2.2.1, ?_⟩
        intro nm' hnm'
        obtain ⟨p, hp, hp1, hp2⟩ := hq'.2.2.2 nm' hnm'
        by_cases hpn : p.1 = nm
        · have hpe : p = (nm, channel) := by
            obtain ⟨k', v⟩ := p
            simp only at hpn
            subst hpn
            have := mem_alookup hkch hp
            rw [hch] at this
            cases this
            rfl
          subst hpe
          exfalso
          have : q.1 ∈ channel.members.erase c.id := by
            rw [List.mem_erase_of_ne]
            · exact hp2
            · intro hh
              exact hqk hh
          rw [hms] at this
          simp at this
        · refine ⟨p, ?_, hp1, hp2⟩
          rw [mem_aerase hkch]
          exact ⟨hp, by rw [← hcn] at hpn; exact hpn⟩
  · rw [if_neg hms]
    refine ⟨akeys_ainsert_nodup _ _ _ hkc, hkn, akeys_ainsert_nodup _ _ _ hkch, ?_, ?_⟩
    · intro p hp
      rw [mem_ainsert hkch] at hp
      rcases hp with rfl | ⟨hp, hpne⟩
      · refine ⟨by simpa using hcn, by simpa using hms, ?_, ?_⟩
        · simp only
          exact hchnd.erase _
        · intro k hk
          simp only at hk
          rw [hchnd.mem_erase_iff] at hk
          obtain ⟨q, hq, hq1, hq2⟩ := (hchan (nm, channel) hchmem).2.2.2 k hk.2
          have hqk : q.1 ≠ c.id := by
            rw [hq1]
            exact hk.1
          refine ⟨q, ?_, hq1, hq2⟩
          rw [mem_ainsert hkc]
          exact Or.inr ⟨hq, hqk⟩
      · have hp' := hchan p hp
        refine ⟨hp'.1, hp'.2.1, hp'.2.2.1, ?_⟩
        intro k hk
        obtain ⟨q, hq, hq1, hq2⟩ := hp'.2.2.2 k hk
        by_cases hqk : q.1 = c.id
        · have hqe : q = (c.id, c) := by
            obtain ⟨k', v⟩ := q
            simp only at hqk
            subst hqk
            have := mem_alookup hkc hq
            rw [hc] at this
            cases this
            rfl
          subst hqe
          refine ⟨(c.id, { c with channels := c.channels.erase channel.name }), ?_, hq1, ?_⟩
          · rw [mem_ainsert hkc]
            exact Or.inl rfl
          · simp only
            rw [List.mem_erase_of_ne (by rw [hcn]; exact hpne)]
            exact hq2
        · refine ⟨q, ?_, hq1, hq2⟩
          rw [mem_ainsert hkc]
          exact Or.inr ⟨hq, hqk⟩
    · intro q hq
      rw [mem_ainsert hkc] at hq
      rcases hq with rfl | ⟨hq, hqk⟩
      · refine ⟨hclc.1, hccnd.erase _, ?_, ?_⟩
        · intro hr
          simp only at hr ⊢
          rw [hclc.2.2.1 hr]
          rfl
        · intro nm' hnm'
          simp only at hnm'
          rw [hccnd.mem_erase_iff] at hnm'
          obtain ⟨p, hp, hp1, hp2⟩ := hclc.2.2.2 nm' hnm'.2
          refine ⟨p, ?_, hp1, hp2⟩
          rw [mem_ainsert hkch]
          refine Or.inr ⟨hp, ?_⟩
          rw [hp1, ← hcn]
          exact hnm'.1
      · have hq' := hcl q hq
        refine ⟨hq'.1, hq'.2.1, hq'.2.2.1, ?_⟩
        intro nm' hnm'
        obtain ⟨p, hp, hp1, hp2⟩ := hq'.2.2.2 nm' hnm'
        by_cases hpn : p.1 = nm
        · have hpe : p = (nm, channel) := by
            obtain ⟨k', v⟩ := p
            simp only at hpn
            subst hpn
            have := mem_alookup hkch hp
            rw [hch] at this
            cases this
            rfl
          subst hpe
          refine ⟨(nm, { channel with members := channel.members.erase c.id }), ?_, hp1, ?_⟩
          · rw [mem_ainsert hkch]
            exact Or.inl rfl
          · simp only
            rw [List.mem_erase_of_ne (fun hh => hqk hh)]
            exact hp2
        · refine ⟨p, ?_, hp1, hp2⟩
          rw [mem_ainsert hkch]
          exact Or.inr ⟨hp, hpn⟩

end Catbox

namespace Catbox

theorem part_inv (s : Server) (cid : Nat) (nm0 msg : String) (hInv : Inv s) :
    Inv (part s cid nm0 msg).1 := by
  cases hc : alookup s.clients cid with
  | none =>
    simp only [part, hc]
    exact hInv
  | some c =>
    have hcid : c.id = cid := (inv_client_spec hInv hc).1
    have hc' : alookup s.clients c.id = some c := by rw [hcid]; exact hc
    by_cases hv : isValidChannel (canonicalizeChannel nm0) = true
    · cases hch : alookup s.channels (canonicalizeChannel nm0) with
      | none =>
        simp only [part, hc]
        simp [hv, hch]
        exact hInv
      | some channel =>
        by_cases hon : channel.name ∈ c.channels
        · rw [part_success_eq s cid nm0 msg c channel hc hv hch hon]
          exact inv_remove_membership s c (canonicalizeChannel nm0) channel hInv hc' hch
        · simp only [part, hc]
          simp [hv, hch, hon]
          exact hInv
    · simp only [part, hc]
      simp [hv]
      exact hInv

end Catbox

namespace Catbox

/-! ### Invariant preservation: adding a membership (JOIN) -/

theorem inv_insert_membership (s : Server) (c : Client) (name : String) (ch0 : Channel)
    (hInv : Inv s)
    (hc : alookup s.clients c.id = some c)
    (hreg : c.registered = true)
    (hmem : name ∉ c.channels)
    (hn0 : ch0.name = name)
    (hnd0 : ch0.members.Nodup)
    (hni : c.id ∉ ch0.members)
    (hmem0 : ∀ k ∈ ch0.members, ∃ q ∈ s.clients, q.1 = k ∧ name ∈ q.2.channels)
    (hlk : ∀ v, alookup s.channels name = some v → v = ch0) :
    Inv { s with clients := ainsert s.clients c.id { c with channels := c.channels ++ [name] }, channels := ainsert s.channels name { ch0 with members := ch0.members ++ [c.id] } } := by
  obtain ⟨hkc, hkn, hkch, hchan, hcl⟩ := hInv
  have hclc := hcl (c.id, c) (alookup_mem hc)
  refine ⟨akeys_ainsert_nodup _ _ _ hkc, hkn, akeys_ainsert_nodup _ _ _ hkch, ?_, ?_⟩
  · intro p hp
    rw [mem_ainsert hkch] at hp
    rcases hp with rfl | ⟨hp, hpne⟩
    · refine ⟨by simpa using hn0, by simp, ?_, ?_⟩
      · simp only
        simp [List.nodup_append, hnd0, hni]
      · intro k hk
        simp only [List.mem_append, List.mem_singleton] at hk
        rcases hk with hk | rfl
        · obtain ⟨q, hq, hq1, hq2⟩ := hmem0 k hk
          have hqk : q.1 ≠ c.id := by
            rw [hq1]
            intro hh
            rw [hh] at hk
            exact hni hk
          refine ⟨q, ?_, hq1, hq2⟩
          rw [mem_ainsert hkc]
          exact Or.inr ⟨hq, hqk⟩
        · refine ⟨(c.id, { c with channels := c.channels ++ [name] }), ?_, rfl, ?_⟩
          · rw [mem_ainsert hkc]
            exact Or.inl rfl
          · simp
    · have hp' := hchan p hp
      refine ⟨hp'.1, hp'.2.1, hp'.2.2.1, ?_⟩
      intro k hk
      obtain ⟨q, hq, hq1, hq2⟩ := hp'.2.2.2 k hk
      by_cases hqk : q.1 = c.id
      · have hqe : q = (c.id, c) := by
          obtain ⟨k', v⟩ := q
          simp only at hqk
          subst hqk
          have := mem_alookup hkc hq
          rw [hc] at this
          cases this
          rfl
        subst hqe
        refine ⟨(c.id, { c with channels := c.channels ++ [name] }), ?_, hq1, ?_⟩
        · rw [mem_ainsert hkc]
          exact Or.inl rfl
        · simp only [List.mem_append]
          exact Or.inl hq2
      · refine ⟨q, ?_, hq1, hq2⟩
        rw [mem_ainsert hkc]
        exact Or.inr ⟨hq, hqk⟩
  · intro q hq
    rw [mem_ainsert hkc] at hq
    rcases hq with rfl | ⟨hq, hqk⟩
    · refine ⟨hclc.1, ?_, ?_, ?_⟩
      · simp only
        simp [List.nodup_append, hclc.2.1, hmem]
      · intro hr
        simp only at hr
        rw [hreg] at hr
        cases hr
      · intro nm' hnm'
        simp only [List.mem_append, List.mem_singleton] at hnm'
        rcases hnm' with hnm' | rfl
        · obtain ⟨p, hp, hp1, hp2⟩ := hclc.2.2.2 nm' hnm'
          have hpn : p.1 ≠ name := by
            rw [hp1]
            intro hh
            rw [hh] at hnm'
            exact hmem hnm'
          refine ⟨p, ?_, hp1, hp2⟩
          rw [mem_ainsert hkch]
          exact Or.inr ⟨hp, hpn⟩
        · refine ⟨(nm', { ch0 with members := ch0.members ++ [c.id] }), ?_, rfl, ?_⟩
          · rw [mem_ainsert hkch]
            exact Or.inl rfl
          · simp
    · have hq' := hcl q hq
      refine ⟨hq'.1, hq'.2.1, hq'.2.2.1, ?_⟩
      intro nm' hnm'
      obtain ⟨p, hp, hp1, hp2⟩ := hq'.2.2.2 nm' hnm'
      by_cases hpn : p.1 = name
      · have hpe : p.2 = ch0 := by
          apply hlk
          have := mem_alookup hkch hp
          rw [hpn] at this
          exact this
        refine ⟨(name, { ch0 with members := ch0.members ++ [c.id] }), ?_, ?_, ?_⟩
        · rw [mem_ainsert hkch]
          exact Or.inl rfl
        · rw [← hpn]
          exact hp1
        · simp only [List.mem_append]
          left
          rw [← hpe]
          exact hp2
      · refine ⟨p, ?_, hp1, hp2⟩
        rw [mem_ainsert hkch]
        exact Or.inr ⟨hp, hpn⟩

theorem joinCommand_inv (s : Server) (c : Client) (m : Message)
    (hInv : Inv s)
    (hc : alookup s.clients c.id = some c)
    (hreg : c.registered = true) :
    Inv (joinCommand s c m).1 := by
  obtain ⟨mpfx, mcmd, mparams⟩ := m
  cases hp : mparams with
  | nil =>
    simp [joinCommand, hp]
    exact hInv
  | cons p0 rest =>
    by_cases h0 : rest = [] ∧ p0 = "0"
    · have hfold : ∀ (names : List String) (acc : Server × List Event), Inv acc.1 →
          Inv ((names.foldl (fun acc name =>
            let r := part acc.1 c.id name ""
            (r.1, acc.2 ++ r.2)) acc)).1 := by
        intro names
        induction names with
        | nil => exact fun acc h => h
        | cons nm rest2 ih =>
          intro acc h
          exact ih _ (part_inv _ _ _ _ h)
      simp only [joinCommand, hp, if_pos h0]
      exact hfold c.channels (s, []) hInv
    · by_cases hv : isValidChannel (canonicalizeChannel p0) = true
      · by_cases hmem : canonicalizeChannel p0 ∈ c.channels
        · simp only [joinCommand, hp, if_neg h0]
          simp [hv, hmem]
          exact hInv
        · have hnotm : c.id ∉ ((alookup s.channels (canonicalizeChannel p0)).getD
              { name := canonicalizeChannel p0, members := [] }).members := by
            cases hch : alookup s.channels (canonicalizeChannel p0) with
            | none => simp
            | some ch0 =>
              simp only [Option.getD_some]
              intro hin
              obtain ⟨cl, hcl, hnm⟩ := (inv_channel_spec hInv hch).2.2.2 c.id hin
              rw [hc] at hcl
              cases hcl
              exact hmem hnm
          rw [joinCommand_eq s c ⟨mpfx, mcmd, p0 :: rest⟩ p0 rest rfl h0 hv hmem hnotm]
          cases hch : alookup s.channels (canonicalizeChannel p0) with
          | none =>
            have := inv_insert_membership s c (canonicalizeChannel p0)
              { name := canonicalizeChannel p0, members := [] } hInv hc hreg hmem rfl
              List.nodup_nil (by simp) (by simp)
              (fun v hv0 => by rw [hch] at hv0; cases hv0)
            simp only [joinSpecResult, hch, Option.getD_none]
            exact this
          | some ch0 =>
            rw [hch] at hnotm
            simp only [Option.getD_some] at hnotm
            have hsp := inv_channel_spec hInv hch
            have := inv_insert_membership s c (canonicalizeChannel p0) ch0 hInv hc hreg hmem
              hsp.1 hsp.2.2.1 hnotm
              (fun k hk => by
                obtain ⟨cl, hcl, hnm⟩ := hsp.2.2.2 k hk
                exact ⟨(k, cl), alookup_mem hcl, rfl, hnm⟩)
              (fun v hv0 => by rw [hch] at hv0; cases hv0; rfl)
            simp only [joinSpecResult, hch, Option.getD_some]
            exact this
      · simp only [joinCommand, hp, if_neg h0]
        simp [hv]
        exact hInv

end Catbox

namespace Catbox

theorem inv_set_nicks (s : Server) (n' : List (String × Nat))
    (hInv : Inv s) (hknd' : (akeys n').Nodup) :
    Inv { s with nicks := n' } := by
  obtain ⟨hkc, hkn, hkch, hchan, hcl⟩ := hInv
  exact ⟨hkc, hknd', hkch, hchan, hcl⟩

theorem inv_delete_client (s : Server) (c : Client)
    (hInv : Inv s)
    (hnomem : ∀ p ∈ s.channels, c.id ∉ p.2.members) :
    Inv { s with clients := aerase s.clients c.id } := by
  obtain ⟨hkc, hkn, hkch, hchan, hcl⟩ := hInv
  refine ⟨akeys_aerase_nodup _ _ hkc, hkn, hkch, ?_, ?_⟩
  · intro p hp
    have hp' := hchan p hp
    refine ⟨hp'.1, hp'.2.1, hp'.2.2.1, ?_⟩
    intro k hk
    obtain ⟨q, hq, hq1, hq2⟩ := hp'.2.2.2 k hk
    have hqk : q.1 ≠ c.id := by
      rw [hq1]
      intro hh
      rw [hh] at hk
      exact hnomem p hp hk
    refine ⟨q, ?_, hq1, hq2⟩
    rw [mem_aerase hkc]
    exact ⟨hq, hqk⟩
  · intro q hq
    rw [mem_aerase hkc] at hq
    exact hcl q hq.1

theorem quit_inv (s : Server) (cid : Nat) (msg : String) (hInv : Inv s) :
    Inv (quit s cid msg).1 := by
  cases hc : alookup s.clients cid with
  | none =>
    simp only [quit, hc]
    exact hInv
  | some c =>
    have hcid : c.id = cid := (inv_client_spec hInv hc).1
    have hc' : alookup s.clients c.id = some c := by rw [hcid]; exact hc
    have hkc : (akeys s.clients).Nodup := hInv.1
    have hkn : (akeys s.nicks).Nodup := hInv.2.1
    have hkch : (akeys s.channels).Nodup := hInv.2.2.1
    cases hreg : c.registered with
    | false =>
      have hnomem : ∀ p ∈ s.channels, c.id ∉ p.2.members := by
        intro p hp hin
        obtain ⟨cl, hcl2, hnm⟩ := (inv_channel_spec hInv
          (mem_alookup hkch (show (p.1, p.2) ∈ s.channels from hp))).2.2.2 c.id hin
        rw [hc'] at hcl2
        cases hcl2
        have := (inv_client_spec hInv hc').2.2.1 hreg
        rw [this] at hnm
        simp at hnm
      by_cases hbl : 0 < byteLen c.nick
      · simp only [quit, hc, hreg, Bool.false_eq_true, if_false, if_pos hbl]
        exact inv_delete_client _ c
          (inv_set_nicks s _ hInv (akeys_aerase_nodup _ _ hkn)) hnomem
      · simp only [quit, hc, hreg, Bool.false_eq_true, if_false, if_neg hbl]
        exact inv_delete_client _ c hInv hnomem
    | true =>
      have hchnd : c.channels.Nodup := (inv_client_spec hInv hc').2.1
      have hname : ∀ nm ch, alookup s.channels nm = some ch → ch.name = nm :=
        fun nm ch h => (inv_channel_spec hInv h).1
      have hspec := quitChannels_spec (fun mid => clientMessage c mid "QUIT" [msg]) c.id
        c.channels s [] [] hchnd hname hkch
      obtain ⟨⟨Qs, Qt, Qe⟩, hQ⟩ :
          ∃ q, quitChannels (fun mid => clientMessage c mid "QUIT" [msg]) c.id
            s c.channels [] [] = q := ⟨_, rfl⟩
      rw [hQ] at hspec
      obtain ⟨heta, hform, hknd, _, _⟩ := hspec
      dsimp only at heta hform hknd
      have hclients : Qs.clients = s.clients := by rw [heta]
      have hnicks : Qs.nicks = s.nicks := by rw [heta]
      have hcfg : Qs.config = s.config := by rw [heta]
      have hopers : Qs.opers = s.opers := by rw [heta]
      have hping : Qs.pingTime = s.pingTime := by rw [heta]
      have hdead : Qs.deadTime = s.deadTime := by rw [heta]
      have hstate : (quit s cid msg).1 =
          { s with clients := aerase s.clients c.id,
                   nicks := aerase s.nicks (canonicalizeNick c.nick),
                   channels := Qs.channels } := by
        simp only [quit, hc, hreg, if_true, hQ]
        rw [hclients, hnicks, hcfg, hopers, hping, hdead]
      rw [hstate]
      refine ⟨akeys_aerase_nodup _ _ hkc, akeys_aerase_nodup _ _ hkn, hknd, ?_, ?_⟩
      · intro p hp
        obtain ⟨pnm, pch⟩ := p
        have hl := mem_alookup hknd hp
        rw [hform pnm] at hl
        by_cases hnm : pnm ∈ c.channels
        · rw [if_pos hnm] at hl
          cases hsch : alookup s.channels pnm with
          | none =>
            rw [hsch] at hl
            rw [show eraseMember c.id none = none from rfl] at hl
            cases hl
          | some ch0 =>
            rw [hsch] at hl
            have hred : eraseMember c.id (some ch0) =
                if ch0.members.erase c.id = [] then none
                else some { ch0 with members := ch0.members.erase c.id } := rfl
            by_cases hms0 : ch0.members.erase c.id = []
            · rw [hred, if_pos hms0] at hl
              cases hl
            · rw [hred, if_neg hms0] at hl
              cases hl
              have hsp := inv_channel_spec hInv hsch
              refine ⟨by simpa using hsp.1, by simpa using hms0, ?_, ?_⟩
              · simp only
                exact hsp.2.2.1.erase _
              · intro k hk
                simp only at hk
                rw [hsp.2.2.1.mem_erase_iff] at hk
                obtain ⟨q, hq, hq1, hq2⟩ :=
                  ((hInv.2.2.2.1) (pnm, ch0) (alookup_mem hsch)).2.2.2 k hk.2
                have hqk : q.1 ≠ c.id := by
                  rw [hq1]
                  exact hk.1
                refine ⟨q, ?_, hq1, hq2⟩
                rw [mem_aerase hkc]
                exact ⟨hq, hqk⟩
        · rw [if_neg hnm] at hl
          have hsp := inv_channel_spec hInv hl
          refine ⟨hsp.1, hsp.2.1, hsp.2.2.1, ?_⟩
          intro k hk
          obtain ⟨q, hq, hq1, hq2⟩ :=
            ((hInv.2.2.2.1) (pnm, pch) (alookup_mem hl)).2.2.2 k hk
          have hqk : q.1 ≠ c.id := by
            rw [hq1]
            intro hh
            rw [hh] at hk
            obtain ⟨cl, hcl2, hnm2⟩ := hsp.2.2.2 c.id hk
            rw [hc'] at hcl2
            cases hcl2
            exact hnm hnm2
          refine ⟨q, ?_, hq1, hq2⟩
          rw [mem_aerase hkc]
          exact ⟨hq, hqk⟩
      · intro q hq
        rw [mem_aerase hkc] at hq
        have hq' := hInv.2.2.2.2 q hq.1
        refine ⟨hq'.1, hq'.2.1, hq'.2.2.1, ?_⟩
        intro nm' hnm'
        obtain ⟨p, hp, hp1, hp2⟩ := hq'.2.2.2 nm' hnm'
        have hlp : alookup s.channels nm' = some p.2 := by
          rw [← hp1]
          exact mem_alookup hkch hp
        by_cases hnm : nm' ∈ c.channels
        · have hin : q.1 ∈ p.2.members.erase c.id :=
            (List.mem_erase_of_ne hq.2).mpr hp2
          have hne : ¬ p.2.members.erase c.id = [] := by
            intro hh
            rw [hh] at hin
            simp at hin
          have hl2 : alookup Qs.channels nm' =
              some { p.2 with members := p.2.members.erase c.id } := by
            rw [hform nm', if_pos hnm, hlp]
            rw [show eraseMember c.id (some p.2) =
              if p.2.members.erase c.id = [] then none
              else some { p.2 with members := p.2.members.erase c.id } from rfl]
            rw [if_neg hne]
          exact ⟨(nm', { p.2 with members := p.2.members.erase c.id }),
            alookup_mem hl2, rfl, hin⟩
        · have hl2 : alookup Qs.channels nm' = some p.2 := by
            rw [hform nm', if_neg hnm]
            exact hlp
          exact ⟨(nm', p.2), alookup_mem hl2, rfl, hp2⟩

end Catbox

namespace Catbox

theorem nickCommand_inv (s : Server) (c : Client) (m : Message)
    (hInv : Inv s) (hc : alookup s.clients c.id = some c) :
    Inv (nickCommand s c m).1 := by
  obtain ⟨mpfx, mcmd, mparams⟩ := m
  cases hp : mparams with
  | nil =>
    simp [nickCommand, hp]
    exact hInv
  | cons nick rest =>
    by_cases hv : isValidNick nick = true
    · cases hfree : alookup s.nicks (canonicalizeNick nick) with
      | some tid =>
        simp [nickCommand, hv, hfree]
        exact hInv
      | none =>
        have hkn : (akeys s.nicks).Nodup := hInv.2.1
        by_cases hbl : 0 < byteLen c.nick
        · have hgoal : (nickCommand s c ⟨mpfx, mcmd, nick :: rest⟩).1 =
              { { s with nicks := aerase (ainsert s.nicks (canonicalizeNick nick) c.id) (canonicalizeNick c.nick) } with clients := ainsert s.clients c.id { c with nick := nick } } := by
            simp [nickCommand, hv, hfree, hbl, setClient]
          rw [hgoal]
          exact inv_update_client
            (inv_set_nicks s _ hInv
              (akeys_aerase_nodup _ _ (akeys_ainsert_nodup _ _ _ hkn)))
            hc rfl rfl (fun h => h)
        · have hgoal : (nickCommand s c ⟨mpfx, mcmd, nick :: rest⟩).1 =
              { { s with nicks := ainsert s.nicks (canonicalizeNick nick) c.id } with clients := ainsert s.clients c.id { c with nick := nick } } := by
            simp [nickCommand, hv, hfree, hbl, setClient]
          rw [hgoal]
          exact inv_update_client
            (inv_set_nicks s _ hInv (akeys_ainsert_nodup _ _ _ hkn))
            hc rfl rfl (fun h => h)
    · simp [nickCommand, hv]
      exact hInv

theorem userCommand_inv (s : Server) (c : Client) (m : Message)
    (hInv : Inv s) (hc : alookup s.clients c.id = some c) :
    Inv (userCommand s c m).1 := by
  obtain ⟨mpfx, mcmd, mparams⟩ := m
  by_cases hreg : c.registered = true
  · simp [userCommand, hreg]
    exact hInv
  · have hregf : c.registered = false := by
      cases hx : c.registered
      · rfl
      · exact absurd hx hreg
    by_cases hnick : byteLen c.nick = 0
    · simp [userCommand, hregf, hnick]
      exact hInv
    · rcases mparams with _ | ⟨user, _ | ⟨mo, _ | ⟨un, _ | ⟨realname, _ | ⟨x, xs⟩⟩⟩⟩⟩
      · simp [userCommand, hregf, hnick]
        exact hInv
      · simp [userCommand, hregf, hnick]
        exact hInv
      · simp [userCommand, hregf, hnick]
        exact hInv
      · simp [userCommand, hregf, hnick]
        exact hInv
      · by_cases hu : isValidUser user = true
        · by_cases hr : 64 < byteLen realname
          · have hgoal : (userCommand s c ⟨mpfx, mcmd, [user, mo, un, realname]⟩).1 =
                { s with clients := ainsert s.clients c.id { c with user := user } } := by
              simp [userCommand, hregf, hnick, hu, hr, setClient]
            rw [hgoal]
            exact inv_update_client hInv hc rfl rfl (fun h => hregf)
          · have hgoal : (userCommand s c ⟨mpfx, mcmd, [user, mo, un, realname]⟩).1 =
                { s with clients := ainsert (ainsert s.clients c.id { c with user := user }) c.id { { c with user := user } with realName := realname, registered := true } } := by
              simp [userCommand, hregf, hnick, hu, hr, setClient, ainsert_ainsert]
            rw [hgoal]
            have hInv1 : Inv { s with clients := ainsert s.clients c.id { c with user := user } } :=
              inv_update_client hInv hc rfl rfl (fun h => hregf)
            have hc1 : alookup (ainsert s.clients c.id { c with user := user }) c.id =
                some { c with user := user } := by
              rw [alookup_ainsert, if_pos rfl]
            exact inv_update_client hInv1 hc1 rfl rfl (fun h => by simp at h)
        · simp [userCommand, hregf, hnick, hu]
          exact hInv
      · simp [userCommand, hregf, hnick]
        exact hInv

theorem operCommand_inv (s : Server) (c : Client) (m : Message)
    (hInv : Inv s) (hc : alookup s.clients c.id = some c) :
    Inv (operCommand s c m).1 := by
  obtain ⟨mpfx, mcmd, mparams⟩ := m
  rcases mparams with _ | ⟨p0, _ | ⟨p1, rest⟩⟩
  · simp [operCommand]
    exact hInv
  · simp [operCommand]
    exact hInv
  · by_cases ho : 'o' ∈ c.modes
    · simp [operCommand, ho]
      exact hInv
    · cases hop : alookup s.opers p0 with
      | none =>
        simp [operCommand, ho, hop]
        exact hInv
      | some pass =>
        by_cases hpw : pass ≠ p1
        · simp [operCommand, ho, hop, hpw]
          exact hInv
        · have hgoal : (operCommand s c ⟨mpfx, mcmd, p0 :: p1 :: rest⟩).1 =
              { s with clients := ainsert s.clients c.id { c with modes := c.modes ++ [Char.ofNat 111] } } := by
            simp [operCommand, ho, hop, hpw, setClient]
          rw [hgoal]
          exact inv_update_client hInv hc rfl rfl (fun h => h)

theorem modeChars_fields (s : Server) (chs : List Char) :
    ∀ (c : Client) (action : Char) (evs : List Event),
      (modeChars s c action chs evs).1.id = c.id ∧
      (modeChars s c action chs evs).1.channels = c.channels ∧
      (modeChars s c action chs evs).1.registered = c.registered := by
  induction chs with
  | nil => exact fun c action evs => ⟨rfl, rfl, rfl⟩
  | cons ch rest ih =>
    intro c action evs
    simp only [modeChars]
    split_ifs
    all_goals exact ih _ _ _

theorem userModeCommand_inv (s : Server) (c : Client) (tid : Nat) (modes : String)
    (hInv : Inv s) (hc : alookup s.clients c.id = some c) :
    Inv (userModeCommand s c tid modes).1 := by
  by_cases ht : tid ≠ c.id
  · simp [userModeCommand, ht]
    exact hInv
  · by_cases hm : byteLen modes = 0
    · simp [userModeCommand, ht, hm]
      exact hInv
    · have hf := modeChars_fields s modes.toList c ' ' []
      have hgoal : (userModeCommand s c tid modes).1 =
          { s with clients := ainsert s.clients c.id (modeChars s c ' ' modes.toList []).1 } := by
        simp only [userModeCommand, if_neg ht, if_neg hm, setClient]
        rw [hf.1]
      rw [hgoal]
      exact inv_update_client hInv hc hf.1 hf.2.1
        (fun h => by rw [← hf.2.2]; exact h)

theorem modeCommand_inv (s : Server) (c : Client) (m : Message)
    (hInv : Inv s) (hc : alookup s.clients c.id = some c) :
    Inv (modeCommand s c m).1 := by
  obtain ⟨mpfx, mcmd, mparams⟩ := m
  rcases mparams with _ | ⟨target, rest⟩
  · simp [modeCommand]
    exact hInv
  · cases hn : alookup s.nicks (canonicalizeNick target) with
    | some tid =>
      simp only [modeCommand, hn]
      exact userModeCommand_inv s c tid _ hInv hc
    | none =>
      cases hch : alookup s.channels (canonicalizeChannel target) with
      | some channel =>
        simp [modeCommand, hn, hch]
        exact hInv
      | none =>
        simp [modeCommand, hn, hch]
        exact hInv

theorem partCommand_inv (s : Server) (c : Client) (m : Message)
    (hInv : Inv s) : Inv (partCommand s c m).1 := by
  obtain ⟨mpfx, mcmd, mparams⟩ := m
  rcases mparams with _ | ⟨p0, rest⟩
  · simp [partCommand]
    exact hInv
  · simp only [partCommand]
    exact part_inv _ _ _ _ hInv

theorem privmsgCommand_state (s : Server) (c : Client) (m : Message) :
    (privmsgCommand s c m).1 = s := by
  obtain ⟨mpfx, mcmd, mparams⟩ := m
  rcases mparams with _ | ⟨target, _ | ⟨msg0, rest⟩⟩
  · simp [privmsgCommand]
  · simp [privmsgCommand]
  · simp only [privmsgCommand]
    split_ifs <;> first
      | rfl
      | (cases alookup s.channels (canonicalizeChannel target) <;> simp <;> split_ifs <;> rfl)
      | (cases alookup s.nicks (canonicalizeNick target) <;> simp <;> split_ifs <;> rfl)

theorem dieCommand_inv (s : Server) (hInv : Inv s) : Inv (dieCommand s).1 := by
  have hfold : ∀ (ids : List Nat) (acc : Server × List Event), Inv acc.1 →
      Inv ((ids.foldl (fun acc cid =>
        let r := quit acc.1 cid "Server shutting down"
        (r.1, acc.2 ++ r.2)) acc)).1 := by
    intro ids
    induction ids with
    | nil => exact fun acc h => h
    | cons i rest ih =>
      intro acc h
      exact ih _ (quit_inv _ _ _ h)
  exact hfold _ _ hInv

end Catbox

namespace Catbox

theorem handleMessage_inv (now : Nat) (s : Server) (cid : Nat) (m : Message)
    (hInv : Inv s) :
    Inv (handleMessage now s cid m).1 := by
  cases hc : alookup s.clients cid with
  | none =>
    simp only [handleMessage, hc]
    exact hInv
  | some c0 =>
    have hcid : c0.id = cid := (inv_client_spec hInv hc).1
    have hc0 : alookup s.clients c0.id = some c0 := by rw [hcid]; exact hc
    have hInv1 : Inv (setClient s { c0 with lastActivityTime := now }) :=
      inv_update_client hInv hc0 rfl rfl (fun h => h)
    have hc1 : alookup (setClient s { c0 with lastActivityTime := now }).clients
        c0.id = some { c0 with lastActivityTime := now } := by
      simp [setClient, alookup_ainsert]
    simp only [handleMessage, hc]
    by_cases hpfx : m.pfx ≠ ""
    · simp only [if_pos hpfx]
      exact hInv1
    · simp only [if_neg hpfx]
      by_cases h1 : m.command = "CAP"
      · simp only [if_pos h1]
        exact hInv1
      · simp only [if_neg h1]
        by_cases h2 : m.command = "NICK"
        · simp only [if_pos h2]
          exact nickCommand_inv _ _ _ hInv1 hc1
        · simp only [if_neg h2]
          by_cases h3 : m.command = "USER"
          · simp only [if_pos h3]
            exact userCommand_inv _ _ _ hInv1 hc1
          · simp only [if_neg h3]
            by_cases hr : c0.registered = false
            · rw [if_pos (show ({ c0 with lastActivityTime := now } : Client).registered = false from hr)]
              exact hInv1
            · rw [if_neg (show ¬ ({ c0 with lastActivityTime := now } : Client).registered = false from hr)]
              by_cases h4 : m.command = "JOIN"
              · simp only [if_pos h4]
                have hrt : ({ c0 with lastActivityTime := now } : Client).registered = true := by
                  cases hx : c0.registered
                  · exact absurd hx hr
                  · rfl
                exact joinCommand_inv _ _ _ hInv1 hc1 hrt
              · simp only [if_neg h4]
                by_cases h5 : m.command = "PART"
                · simp only [if_pos h5]
                  exact partCommand_inv _ _ _ hInv1
                · simp only [if_neg h5]
                  by_cases h6 : m.command = "PRIVMSG"
                  · simp only [if_pos h6]
                    rw [privmsgCommand_state]
                    exact hInv1
                  · simp only [if_neg h6]
                    by_cases h7 : m.command = "LUSERS"
                    · simp only [if_pos h7]
                      exact hInv1
                    · simp only [if_neg h7]
                      by_cases h8 : m.command = "MOTD"
                      · simp only [if_pos h8]
                        exact hInv1
                      · simp only [if_neg h8]
                        by_cases h9 : m.command = "QUIT"
                        · simp only [if_pos h9]
                          exact quit_inv _ _ _ hInv1
                        · simp only [if_neg h9]
                          by_cases h10 : m.command = "PONG"
                          · simp only [if_pos h10]
                            exact hInv1
                          · simp only [if_neg h10]
                            by_cases h11 : m.command = "PING"
                            · simp only [if_pos h11]
                              exact hInv1
                            · simp only [if_neg h11]
                              by_cases h12 : m.command = "DIE"
                              · simp only [if_pos h12]
                                exact dieCommand_inv _ hInv1
                              · simp only [if_neg h12]
                                by_cases h13 : m.command = "WHOIS"
                                · simp only [if_pos h13]
                                  exact hInv1
                                · simp only [if_neg h13]
                                  by_cases h14 : m.command = "OPER"
                                  · simp only [if_pos h14]
                                    exact operCommand_inv _ _ _ hInv1 hc1
                                  · simp only [if_neg h14]
                                    by_cases h15 : m.command = "MODE"
                                    · simp only [if_pos h15]
                                      exact modeCommand_inv _ _ _ hInv1 hc1
                                    · simp only [if_neg h15]
                                      by_cases h16 : m.command = "WHO"
                                      · simp only [if_pos h16]
                                        exact hInv1
                                      · simp only [if_neg h16]
                                        exact hInv1

theorem inv_claim_form (s : Server) (hInv : Inv s) :
    ∀ nm ch, alookup s.channels nm = some ch →
      ch.members ≠ [] ∧
      ∀ k cl, alookup s.clients k = some cl →
        (k ∈ ch.members ↔ nm ∈ cl.channels) := by
  intro nm ch hch
  refine ⟨(inv_channel_spec hInv hch).2.1, ?_⟩
  intro k cl hcl
  constructor
  · intro hk
    obtain ⟨cl', hcl', hnm⟩ := (inv_channel_spec hInv hch).2.2.2 k hk
    rw [hcl] at hcl'
    cases hcl'
    exact hnm
  · intro hnm
    obtain ⟨ch', hch', hk⟩ := (inv_client_spec hInv hcl).2.2.2 nm hnm
    rw [hch] at hch'
    cases hch'
    exact hk

end Catbox

namespace Catbox

/-! ### Claim C6: the event-loop invariants are preserved by dispatch -/

/-- Claim C6: every dispatcher operation preserves the event-loop
invariants; in particular, in the resulting state a client is in a
channel's member map exactly when the channel is in the client's channel
map, and every channel present in the channel index has at least one
member. -/
theorem dispatcher_preserves_invariants (now : Nat) (s : Server) (cid : Nat)
    (m : Message) (hInv : Inv s) :
    Inv (handleMessage now s cid m).1 ∧
    (∀ nm ch, alookup (handleMessage now s cid m).1.channels nm = some ch →
      ch.members ≠ [] ∧
      ∀ k cl, alookup (handleMessage now s cid m).1.clients k = some cl →
        (k ∈ ch.members ↔ nm ∈ cl.channels)) :=
  ⟨handleMessage_inv now s cid m hInv,
   inv_claim_form _ (handleMessage_inv now s cid m hInv)⟩

/-- Witness for C6: alice joins `#new` on the sample state; the invariant
hypothesis is discharged by evaluation. -/
theorem dispatcher_preserves_invariants_witness :
    Inv (handleMessage 5 sampleServer 1 ⟨"", "JOIN", ["#new"]⟩).1 ∧
    (∀ nm ch,
      alookup (handleMessage 5 sampleServer 1 ⟨"", "JOIN", ["#new"]⟩).1.channels nm =
        some ch →
      ch.members ≠ [] ∧
      ∀ k cl,
        alookup (handleMessage 5 sampleServer 1 ⟨"", "JOIN", ["#new"]⟩).1.clients k =
          some cl →
        (k ∈ ch.members ↔ nm ∈ cl.channels)) :=
  dispatcher_preserves_invariants 5 sampleServer 1 ⟨"", "JOIN", ["#new"]⟩ (by decide)

end Catbox

namespace Catbox

theorem handleMessage_join (now : Nat) (s : Server) (cid : Nat) (c0 : Client)
    (params : List String)
    (hc : alookup s.clients cid = some c0) (hreg : c0.registered = true) :
    handleMessage now s cid ⟨"", "JOIN", params⟩ =
      joinCommand (setClient s { c0 with lastActivityTime := now })
        { c0 with lastActivityTime := now } ⟨"", "JOIN", params⟩ := by
  simp [handleMessage, hc, hreg]

theorem handleMessage_part (now : Nat) (s : Server) (cid : Nat) (c0 : Client)
    (params : List String)
    (hc : alookup s.clients cid = some c0) (hreg : c0.registered = true) :
    handleMessage now s cid ⟨"", "PART", params⟩ =
      partCommand (setClient s { c0 with lastActivityTime := now })
        { c0 with lastActivityTime := now } ⟨"", "PART", params⟩ := by
  simp [handleMessage, hc, hreg]

end Catbox

namespace Catbox

theorem erase_append_self {α : Type} [DecidableEq α] {l : List α} {a : α}
    (h : a ∉ l) : (l ++ [a]).erase a = l := by
  rw [List.erase_append_right _ h]
  simp

theorem joinSpecResult_state (s' : Server) (c' : Client) (name : String) :
    (joinSpecResult s' c' name).1 =
      { s' with channels := ainsert s'.channels name { (alookup s'.channels name).getD { name := name, members := [] } with members := ((alookup s'.channels name).getD { name := name, members := [] }).members ++ [c'.id] }, clients := ainsert s'.clients c'.id { c' with channels := c'.channels ++ [name] } } :=
  rfl

end Catbox

namespace Catbox

/-! ### Claim C7: JOIN then PART restores the indices -/

/-- The reply list of a successful JOIN does not depend on the acting
client's last-activity timestamp: only nicks, user fields and the channel
membership enter the emitted messages. -/
theorem joinSpecResult_events_congr (s : Server) (c0 : Client) (nm : String) (t t' : Nat) :
    (joinSpecResult { s with clients := ainsert s.clients c0.id { c0 with lastActivityTime := t } }
      { c0 with lastActivityTime := t } nm).2 =
    (joinSpecResult { s with clients := ainsert s.clients c0.id { c0 with lastActivityTime := t' } }
      { c0 with lastActivityTime := t' } nm).2 := by
  simp only [joinSpecResult]
  dsimp only
  simp only [ainsert_ainsert, getClientD]
  refine congrArg₂ (fun a b => a ++ b)
    (congrArg₂ (fun a b => a ++ b) (congrArg₂ (fun a b => a ++ b) ?_ ?_) ?_) ?_
  · rfl
  · refine List.map_congr_left ?_
    intro mid _
    have hnick :
        ((alookup (ainsert s.clients c0.id
            { c0 with lastActivityTime := t, channels := c0.channels ++ [nm] }) mid).getD
          emptyClient).nick =
        ((alookup (ainsert s.clients c0.id
            { c0 with lastActivityTime := t', channels := c0.channels ++ [nm] }) mid).getD
          emptyClient).nick := by
      rw [alookup_ainsert, alookup_ainsert]
      by_cases h : c0.id = mid
      · rw [if_pos h, if_pos h]
        rfl
      · rw [if_neg h, if_neg h]
    rw [hnick]
    rfl
  · rfl
  · rfl

end Catbox

namespace Catbox

/-- Claim C7: for a registered client that is not on the valid channel
named by `raw`, handling `JOIN raw` and then `PART raw` returns the
client, nick and channel indices exactly to their pre-JOIN values, except
that the acting client's record carries the updated last-activity
timestamp (in the Go code that timestamp lives in the pointed-to struct,
so the indices themselves are restored exactly); handling `JOIN raw` again
from that state emits exactly the same replies as the first JOIN and
applies the same state change (again up to the activity timestamp). -/
theorem join_part_roundtrip (now1 now2 now3 : Nat) (s : Server) (c0 : Client)
    (raw : String) (hInv : Inv s)
    (hc : alookup s.clients c0.id = some c0)
    (hreg : c0.registered = true)
    (hv : isValidChannel (canonicalizeChannel raw) = true)
    (hmem : canonicalizeChannel raw ∉ c0.channels) :
    (handleMessage now2 (handleMessage now1 s c0.id ⟨"", "JOIN", [raw]⟩).1 c0.id
        ⟨"", "PART", [raw]⟩).1 =
      { s with clients := ainsert s.clients c0.id { c0 with lastActivityTime := now2 } } ∧
    (handleMessage now3
        (handleMessage now2 (handleMessage now1 s c0.id ⟨"", "JOIN", [raw]⟩).1 c0.id
          ⟨"", "PART", [raw]⟩).1 c0.id ⟨"", "JOIN", [raw]⟩).2 =
      (handleMessage now1 s c0.id ⟨"", "JOIN", [raw]⟩).2 ∧
    (handleMessage now3
        (handleMessage now2 (handleMessage now1 s c0.id ⟨"", "JOIN", [raw]⟩).1 c0.id
          ⟨"", "PART", [raw]⟩).1 c0.id ⟨"", "JOIN", [raw]⟩).1 =
      { (handleMessage now1 s c0.id ⟨"", "JOIN", [raw]⟩).1 with
        clients := ainsert s.clients c0.id { c0 with lastActivityTime := now3, channels := c0.channels ++ [canonicalizeChannel raw] } } := by
  have hraw0 : raw ≠ "0" := by
    intro h
    rw [h] at hv
    exact absurd hv (by decide)
  have hp0 : ¬ (([] : List String) = [] ∧ raw = "0") := fun h => hraw0 h.2
  have hch0notm : c0.id ∉ ((alookup s.channels (canonicalizeChannel raw)).getD
      { name := canonicalizeChannel raw, members := [] }).members := by
    cases hch : alookup s.channels (canonicalizeChannel raw) with
    | none => simp
    | some ch0 =>
      simp only [Option.getD_some]
      intro hin
      obtain ⟨cl, hcl, hnm2⟩ := (inv_channel_spec hInv hch).2.2.2 c0.id hin
      rw [hc] at hcl
      cases hcl
      exact hmem hnm2
  have hch0name : ((alookup s.channels (canonicalizeChannel raw)).getD
      { name := canonicalizeChannel raw, members := [] }).name = canonicalizeChannel raw := by
    cases hch : alookup s.channels (canonicalizeChannel raw) with
    | none => simp
    | some ch0 =>
      simp only [Option.getD_some]
      exact (inv_channel_spec hInv hch).1
  have hjoin : ∀ t : Nat,
      joinCommand { s with clients := ainsert s.clients c0.id { c0 with lastActivityTime := t } }
        { c0 with lastActivityTime := t } ⟨"", "JOIN", [raw]⟩ =
      joinSpecResult { s with clients := ainsert s.clients c0.id { c0 with lastActivityTime := t } }
        { c0 with lastActivityTime := t } (canonicalizeChannel raw) := by
    intro t
    exact joinCommand_eq _ _ _ raw [] rfl hp0 hv hmem hch0notm
  have hr1 : handleMessage now1 s c0.id ⟨"", "JOIN", [raw]⟩ =
      joinSpecResult { s with clients := ainsert s.clients c0.id { c0 with lastActivityTime := now1 } }
        { c0 with lastActivityTime := now1 } (canonicalizeChannel raw) := by
    rw [handleMessage_join now1 s c0.id c0 [raw] hc hreg]
    rw [show setClient s { c0 with lastActivityTime := now1 } =
      { s with clients := ainsert s.clients c0.id { c0 with lastActivityTime := now1 } } from rfl]
    exact hjoin now1
  have hr1s : (handleMessage now1 s c0.id ⟨"", "JOIN", [raw]⟩).1 =
      { s with channels := ainsert s.channels (canonicalizeChannel raw) { (alookup s.channels (canonicalizeChannel raw)).getD { name := canonicalizeChannel raw, members := [] } with members := ((alookup s.channels (canonicalizeChannel raw)).getD { name := canonicalizeChannel raw, members := [] }).members ++ [c0.id] }, clients := ainsert s.clients c0.id { c0 with lastActivityTime := now1, channels := c0.channels ++ [canonicalizeChannel raw] } } := by
    rw [hr1, joinSpecResult_state]
    dsimp only
    rw [ainsert_ainsert]
  have hlk1 : alookup (handleMessage now1 s c0.id ⟨"", "JOIN", [raw]⟩).1.clients c0.id =
      some { c0 with lastActivityTime := now1, channels := c0.channels ++ [canonicalizeChannel raw] } := by
    rw [hr1s]
    dsimp only
    rw [alookup_ainsert, if_pos rfl]
  have hsp : setClient (handleMessage now1 s c0.id ⟨"", "JOIN", [raw]⟩).1
      { ({ c0 with lastActivityTime := now1, channels := c0.channels ++ [canonicalizeChannel raw] } : Client) with lastActivityTime := now2 } =
      { s with channels := ainsert s.channels (canonicalizeChannel raw) { (alookup s.channels (canonicalizeChannel raw)).getD { name := canonicalizeChannel raw, members := [] } with members := ((alookup s.channels (canonicalizeChannel raw)).getD { name := canonicalizeChannel raw, members := [] }).members ++ [c0.id] }, clients := ainsert s.clients c0.id { c0 with lastActivityTime := now2, channels := c0.channels ++ [canonicalizeChannel raw] } } := by
    rw [hr1s]
    simp only [setClient]
    rw [ainsert_ainsert]
  have hr2pre : handleMessage now2 (handleMessage now1 s c0.id ⟨"", "JOIN", [raw]⟩).1 c0.id
      ⟨"", "PART", [raw]⟩ =
      part { s with channels := ainsert s.channels (canonicalizeChannel raw) { (alookup s.channels (canonicalizeChannel raw)).getD { name := canonicalizeChannel raw, members := [] } with members := ((alookup s.channels (canonicalizeChannel raw)).getD { name := canonicalizeChannel raw, members := [] }).members ++ [c0.id] }, clients := ainsert s.clients c0.id { c0 with lastActivityTime := now2, channels := c0.channels ++ [canonicalizeChannel raw] } } c0.id raw "" := by
    rw [handleMessage_part now2 _ c0.id _ [raw] hlk1 hreg, hsp]
    rfl
  have hps := part_success_eq
    { s with channels := ainsert s.channels (canonicalizeChannel raw) { (alookup s.channels (canonicalizeChannel raw)).getD { name := canonicalizeChannel raw, members := [] } with members := ((alookup s.channels (canonicalizeChannel raw)).getD { name := canonicalizeChannel raw, members := [] }).members ++ [c0.id] }, clients := ainsert s.clients c0.id { c0 with lastActivityTime := now2, channels := c0.channels ++ [canonicalizeChannel raw] } }
    c0.id raw ""
    { c0 with lastActivityTime := now2, channels := c0.channels ++ [canonicalizeChannel raw] }
    { (alookup s.channels (canonicalizeChannel raw)).getD { name := canonicalizeChannel raw, members := [] } with members := ((alookup s.channels (canonicalizeChannel raw)).getD { name := canonicalizeChannel raw, members := [] }).members ++ [c0.id] }
    (by dsimp only; rw [alookup_ainsert, if_pos rfl]) hv
    (by dsimp only; rw [alookup_ainsert, if_pos rfl])
    (by rw [show ({ (alookup s.channels (canonicalizeChannel raw)).getD { name := canonicalizeChannel raw, members := [] } with members := ((alookup s.channels (canonicalizeChannel raw)).getD { name := canonicalizeChannel raw, members := [] }).members ++ [c0.id] } : Channel).name = canonicalizeChannel raw from hch0name]; simp)
  have hr2s : (handleMessage now2 (handleMessage now1 s c0.id ⟨"", "JOIN", [raw]⟩).1 c0.id
      ⟨"", "PART", [raw]⟩).1 =
      { s with clients := ainsert s.clients c0.id { c0 with lastActivityTime := now2 } } := by
    rw [hr2pre, hps]
    dsimp only
    simp only [ainsert_ainsert]
    rw [show (((alookup s.channels (canonicalizeChannel raw)).getD { name := canonicalizeChannel raw, members := [] }).members ++ [c0.id]).erase c0.id = ((alookup s.channels (canonicalizeChannel raw)).getD { name := canonicalizeChannel raw, members := [] }).members from erase_append_self hch0notm]
    rw [hch0name]
    rw [show (c0.channels ++ [canonicalizeChannel raw]).erase (canonicalizeChannel raw) = c0.channels from erase_append_self hmem]
    cases hch : alookup s.channels (canonicalizeChannel raw) with
    | none =>
      simp only [Option.getD_none]
      rw [if_pos trivial]
      rw [show ainsert s.channels (canonicalizeChannel raw) ({ name := canonicalizeChannel raw, members := ([] : List Nat) ++ [c0.id] } : Channel) = s.channels ++ [(canonicalizeChannel raw, ({ name := canonicalizeChannel raw, members := ([] : List Nat) ++ [c0.id] } : Channel))] from ainsert_of_alookup_none hch _]
      rw [aerase_append_of_alookup_none hch]
    | some ch0 =>
      have hne : ch0.members ≠ [] := (inv_channel_spec hInv hch).2.1
      have hname : ch0.name = canonicalizeChannel raw := (inv_channel_spec hInv hch).1
      simp only [Option.getD_some]
      rw [if_neg hne]
      rw [show ({ name := canonicalizeChannel raw, members := ch0.members } : Channel) = ch0 from by rw [← hname]]
      rw [ainsert_alookup_self hch]
  have hlk2 : alookup (handleMessage now2 (handleMessage now1 s c0.id ⟨"", "JOIN", [raw]⟩).1 c0.id
      ⟨"", "PART", [raw]⟩).1.clients c0.id = some { c0 with lastActivityTime := now2 } := by
    rw [hr2s]
    dsimp only
    rw [alookup_ainsert, if_pos rfl]
  have hr3 : handleMessage now3 (handleMessage now2 (handleMessage now1 s c0.id ⟨"", "JOIN", [raw]⟩).1
      c0.id ⟨"", "PART", [raw]⟩).1 c0.id ⟨"", "JOIN", [raw]⟩ =
      joinSpecResult { s with clients := ainsert s.clients c0.id { c0 with lastActivityTime := now3 } }
        { c0 with lastActivityTime := now3 } (canonicalizeChannel raw) := by
    rw [handleMessage_join now3 _ c0.id _ [raw] hlk2 hreg]
    rw [show setClient (handleMessage now2 (handleMessage now1 s c0.id ⟨"", "JOIN", [raw]⟩).1 c0.id
        ⟨"", "PART", [raw]⟩).1 { ({ c0 with lastActivityTime := now2 } : Client) with lastActivityTime := now3 } =
      { s with clients := ainsert s.clients c0.id { c0 with lastActivityTime := now3 } } from by
        rw [show setClient (handleMessage now2 (handleMessage now1 s c0.id ⟨"", "JOIN", [raw]⟩).1 c0.id
            ⟨"", "PART", [raw]⟩).1 { ({ c0 with lastActivityTime := now2 } : Client) with lastActivityTime := now3 } =
          { (handleMessage now2 (handleMessage now1 s c0.id ⟨"", "JOIN", [raw]⟩).1 c0.id
            ⟨"", "PART", [raw]⟩).1 with clients := ainsert (handleMessage now2 (handleMessage now1 s c0.id ⟨"", "JOIN", [raw]⟩).1 c0.id
            ⟨"", "PART", [raw]⟩).1.clients c0.id { c0 with lastActivityTime := now3 } } from rfl]
        rw [hr2s]
        dsimp only
        rw [ainsert_ainsert]]
    exact hjoin now3
  refine ⟨hr2s, ?_, ?_⟩
  · rw [hr3, hr1]
    exact joinSpecResult_events_congr s c0 (canonicalizeChannel raw) now3 now1
  · rw [hr3, joinSpecResult_state, hr1s]
    dsimp only
    rw [ainsert_ainsert]

end Catbox

namespace Catbox

theorem join_part_roundtrip_witness :
    Inv sampleServer ∧
    ((handleMessage 6 (handleMessage 5 sampleServer aliceC.id ⟨"", "JOIN", ["#new"]⟩).1 aliceC.id
        ⟨"", "PART", ["#new"]⟩).1 =
      { sampleServer with clients := ainsert sampleServer.clients aliceC.id { aliceC with lastActivityTime := 6 } } ∧
    (handleMessage 7
        (handleMessage 6 (handleMessage 5 sampleServer aliceC.id ⟨"", "JOIN", ["#new"]⟩).1 aliceC.id
          ⟨"", "PART", ["#new"]⟩).1 aliceC.id ⟨"", "JOIN", ["#new"]⟩).2 =
      (handleMessage 5 sampleServer aliceC.id ⟨"", "JOIN", ["#new"]⟩).2 ∧
    (handleMessage 7
        (handleMessage 6 (handleMessage 5 sampleServer aliceC.id ⟨"", "JOIN", ["#new"]⟩).1 aliceC.id
          ⟨"", "PART", ["#new"]⟩).1 aliceC.id ⟨"", "JOIN", ["#new"]⟩).1 =
      { (handleMessage 5 sampleServer aliceC.id ⟨"", "JOIN", ["#new"]⟩).1 with
        clients := ainsert sampleServer.clients aliceC.id { aliceC with lastActivityTime := 7, channels := aliceC.channels ++ [canonicalizeChannel "#new"] } }) :=
  ⟨by decide,
   join_part_roundtrip 5 6 7 sampleServer aliceC "#new" (by decide) (by decide) rfl
     (by decide) (by decide)⟩

end Catbox
